import Mathlib

/-!
Verification of the sabot structured contextual logger.

The development shallowly embeds the Go package `sabot` (file `sabot.go` of
the current variant: `Config`, `Sabot`, `Info`/`Error`, `WithFields`/`GetFields`,
`log`, `withFields`, `getFields`, `logErrorFields`, `newFields`,
`marshalUnknown`, `copyFields`, `Fields.truncate`).

Modelling choices:
* Go strings are modelled as lists of characters (`GoStr`); Go byte-level
  indexing and character-level indexing coincide on the ASCII examples used
  by the tests.
* Go `any` values that can reach the logger are modelled by the inductive
  `GoValue`.  Non-native values (structs, slices, channels, ...) are modelled
  by `GoValue.vOther m r` carrying the outcome `m` of `encoding/json.Marshal`
  on them (`Except.ok data`, or `Except.error e` for unserializable values
  such as channels) together with their `fmt %#v` rendering `r`.
  Floating point values carry a finiteness flag: Go `json.Marshal` fails on
  NaN and infinities ("json: unsupported value") and succeeds on finite
  floats; the numeric payload itself is opaque.  Timestamps likewise carry a
  flag recording whether the year lies in [0,9999]: Go `json.Marshal` fails
  on a `time.Time` outside that range ("Time.MarshalJSON: year outside of
  range") and succeeds otherwise; the instant payload itself is opaque.
* `pkg/errors` error values are modelled by `GoErr`, whose field `plusV` is
  the `fmt %+v` rendering; stack-trace lines are elided, and `errors.Wrapf`
  renders cause first, then the wrapping message, as `%+v` of pkg/errors does.
* Go maps (`Fields`) are modelled as association lists with unique keys,
  written only through `setF`/`delF`; statements compare stores through
  lookups (`findF`), which is insensitive to the unspecified Go map
  iteration order.
* `context.Context` is modelled by `GoContext`: the only observation the
  package makes on a context is `ctx.Value(LogKey)`.
* The mutable Go map heap is modelled explicitly (`Heap`, `writeMap`,
  `allocMap`) for the copy-on-write statements; the pure functions are the
  denotation of the same code.
-/

/-- Go strings, as lists of characters. -/
abbrev GoStr := List Char

/-- Embed a Lean string literal as a `GoStr`. -/
def gs (s : String) : GoStr := s.data

/-- Go newline character, as written by the logger. -/
def goNL : GoStr := [Char.ofNat 10]

/-- Opening curly brace character (JSON object delimiter). -/
def lbraceC : Char := Char.ofNat 123

/-- Closing curly brace character (JSON object delimiter). -/
def rbraceC : Char := Char.ofNat 125

/-- Model of a `pkg/errors` error value: its `%+v` rendering (stack frames elided). -/
structure GoErr where
  plusV : GoStr
deriving DecidableEq, Repr

/-- Model of `errors.Errorf`: the `%+v` rendering is the message. -/
def errorsErrorf (msg : GoStr) : GoErr := ⟨msg⟩

/-- Model of `errors.Wrapf`: `%+v` prints the cause first, then the wrap message. -/
def errorsWrapf (e : GoErr) (msg : GoStr) : GoErr := ⟨e.plusV ++ goNL ++ msg⟩

/-- Render a natural number in decimal. -/
def natToGoStr (n : Nat) : GoStr := (toString n).data

/-- Render an integer in decimal. -/
def intToGoStr (n : Int) : GoStr := (toString n).data

/-- Outcome of running `encoding/json.Marshal` on a value: the serialized
text, or the message of the serialization error. -/
inductive JsonOutcome where
  | ok (data : GoStr)
  | fail (errMsg : GoStr)
deriving DecidableEq, Repr

/-- Model of the Go `any` values that can reach the logger.  The seven native
cases mirror the type switch of `marshalUnknown`; `vOther` stands for every
other type and carries the outcome of `json.Marshal` on the value together
with its `%#v` rendering. -/
inductive GoValue where
  | vStr (s : GoStr)
  | vBytes (bs : List Nat)
  | vInt (n : Int)
  | vInt64 (n : Int)
  | vFloat (finite : Bool) (payload : Nat)
  | vTime (inRange : Bool) (t : Nat)
  | vDuration (d : Int)
  | vOther (marshal : JsonOutcome) (rendering : GoStr)
deriving DecidableEq, Repr

/-- Concatenate a list of strings with a separator. -/
def joinWith (sep : GoStr) : List GoStr → GoStr
  | [] => []
  | [x] => x
  | x :: xs => x ++ sep ++ joinWith sep xs

/-- Model of the Go `%#v` rendering of a single value (deterministic stand-in
for the `fmt` package's go-syntax formatting, which the claims treat as an
opaque rendering). -/
def goSyntaxV : GoValue → GoStr
  | GoValue.vStr s => '"' :: s ++ ['"']
  | GoValue.vBytes bs => gs "[]byte of len " ++ natToGoStr bs.length
  | GoValue.vInt n => intToGoStr n
  | GoValue.vInt64 n => intToGoStr n
  | GoValue.vFloat _ p => gs "float64 " ++ natToGoStr p
  | GoValue.vTime _ t => gs "time.Time " ++ natToGoStr t
  | GoValue.vDuration d => intToGoStr d
  | GoValue.vOther _ r => r

/-- Model of the Go `%#v` rendering of a `[]any` key-value slice. -/
def goSyntaxKv (kv : List GoValue) : GoStr :=
  gs "[]interface (" ++ joinWith (gs ", ") (kv.map goSyntaxV) ++ gs ")"

/-- The `logErrorKey` constant of the package. -/
def logErrorKeyG : GoStr := gs "logerror"

/-- The `truncationNotice` constant of the package. -/
def truncationNoticeG : GoStr := gs "--truncated--"

/-- Field stores: Go `map[string]any`, as an association list with unique keys. -/
abbrev Fields := List (GoStr × GoValue)

/-- Go map lookup `fields[key]` (as the comma-ok form returning an option). -/
def findF : Fields → GoStr → Option GoValue
  | [], _ => none
  | p :: rest, k => if p.1 = k then some p.2 else findF rest k

/-- Go map write `fields[key] = v`: replace the binding if the key is
present, otherwise add it. -/
def setF : Fields → GoStr → GoValue → Fields
  | [], k, v => [(k, v)]
  | p :: rest, k, v => if p.1 = k then (k, v) :: rest else p :: setF rest k v

/-- Go map `delete(fields, key)`. -/
def delF : Fields → GoStr → Fields
  | [], _ => []
  | p :: rest, k => if p.1 = k then rest else p :: delF rest k

/-- Keys of a field store. -/
def keysF (f : Fields) : List GoStr := f.map Prod.fst

/-- The Go loop `for k, v := range overlay { fields[k] = v }`. -/
def mergeInto (fields : Fields) (overlay : Fields) : Fields :=
  overlay.foldl (fun acc p => setF acc p.1 p.2) fields

/-- `logErrorFields`: the two-field diagnostic store built from a malformed
key-value call. -/
def logErrorFields (err : GoErr) (kv : List GoValue) : Fields :=
  [(logErrorKeyG, GoValue.vStr err.plusV),
   (gs "keyvals", GoValue.vStr (goSyntaxKv kv))]

/-- `marshalUnknown`: native types pass through unchanged; any other value is
serialized with `json.Marshal`, yielding its serialization as a string, or
the pair `(logErrorKey, err)` when serialization fails. -/
def marshalUnknown (obj : GoValue) : GoValue × Option GoErr :=
  match obj with
  | GoValue.vOther m r =>
    match m with
    | JsonOutcome.ok data => (GoValue.vStr data, none)
    | JsonOutcome.fail e =>
      (GoValue.vStr logErrorKeyG,
       some (errorsWrapf (errorsErrorf e) (gs "failed to marshal: " ++ r)))
  | v => (v, none)

/-- Loop body of `newFields`: interpret the slice as key-value pairs.  A
non-string key aborts the whole call with the diagnostic store; a value whose
serialization fails has its key deleted and the diagnostic pair merged in,
after which the loop continues. -/
def buildFields (kvAll : List GoValue) (fields : Fields) : List GoValue → Fields
  | key :: v :: rest =>
    match key with
    | GoValue.vStr k =>
      match marshalUnknown v with
      | (nv, none) => buildFields kvAll (setF fields k nv) rest
      | (nv, some err) =>
        buildFields kvAll
          (mergeInto (delF (setF fields k nv) k) (logErrorFields err kvAll)) rest
    | badKey =>
      logErrorFields
        (errorsErrorf (gs "non-string field key: " ++ goSyntaxV badKey)) kvAll
  | _ => fields

/-- `newFields`: build a fresh store from a key-value slice, degrading to the
diagnostic store on an odd-length slice. -/
def newFields (kv : List GoValue) : Fields :=
  if kv.length % 2 ≠ 0 then
    logErrorFields (errorsErrorf (gs "cannot create fields from odd count")) kv
  else
    buildFields kv [] kv

/-- The value a context carries under the package's `LogKey`: either an
actual `Fields` store, or (written by a foreign party) a value of some other
type, observed only through its `%#v` rendering. -/
inductive CtxVal where
  | fieldsVal (f : Fields)
  | otherVal (rendering : GoStr)
deriving DecidableEq, Repr

/-- Model of `context.Context` as observed by the package: a chain of
`context.WithValue` frames over `context.Background()`, where only the frames
keyed by the package's `LogKey` are distinguishable. -/
inductive GoContext where
  | background
  | withLogValue (parent : GoContext) (v : CtxVal)
  | withOtherValue (parent : GoContext)
deriving DecidableEq, Repr

/-- `ctx.Value(LogKey)`: the value of the nearest `LogKey` frame, if any. -/
def ctxLogValue : GoContext → Option CtxVal
  | GoContext.background => none
  | GoContext.withLogValue _ v => some v
  | GoContext.withOtherValue p => ctxLogValue p

/-- `getFields`: empty store when the context carries nothing, the carried
store when it is a `Fields`, and a one-field type-mismatch diagnostic when a
foreign value sits under `LogKey`. -/
def getFields (ctx : GoContext) : Fields :=
  match ctxLogValue ctx with
  | none => []
  | some (CtxVal.fieldsVal f) => f
  | some (CtxVal.otherVal r) =>
    [(logErrorKeyG, GoValue.vStr (gs "failed to assert type Fields on " ++ r))]

/-- `copyFields`: fresh store populated from the context's store. -/
def copyFields (ctx : GoContext) : Fields :=
  mergeInto [] (getFields ctx)

/-- `withFields`: copy the context's store, overlay the new pairs, attach the
result to a derived context. -/
def withFields (ctx : GoContext) (kv : List GoValue) : GoContext :=
  GoContext.withLogValue ctx (CtxVal.fieldsVal (mergeInto (copyFields ctx) (newFields kv)))

/-- Truncation of one value at an already-adjusted limit `max`: a string
strictly longer than `max` is cut to its first `max` characters with the
notice appended, everything else passes through. -/
def truncVal (max : Int) : GoValue → GoValue
  | GoValue.vStr s =>
    if max < (s.length : Int) then GoValue.vStr (s.take max.toNat ++ truncationNoticeG)
    else GoValue.vStr s
  | v => v

/-- `Fields.truncate`: subtract the notice length from the limit; below 1 the
operation is a no-op, otherwise every oversized string value is truncated. -/
def Fields.truncate (fields : Fields) (maxLen : Int) : Fields :=
  let max := maxLen - (truncationNoticeG.length : Int)
  if max < 1 then fields
  else fields.map (fun p => (p.1, truncVal max p.2))

/-- Truncation as observed on one value of the final store (the composite of
the guard and `truncVal`); used to state what emission does to each value. -/
def truncOne (maxLen : Int) (v : GoValue) : GoValue :=
  let max := maxLen - (truncationNoticeG.length : Int)
  if max < 1 then v else truncVal max v

/-- JSON rendering of one string (escaping elided; the claims treat the
rendering as opaque). -/
def jsonQuote (s : GoStr) : GoStr := '"' :: s ++ ['"']

/-- Model of `json.Marshal` on a single stored value.  Native values
serialize; a non-finite float fails (Go: "json: unsupported value"); a
`vOther` value reproduces its recorded `json.Marshal` outcome. -/
def jsonMarshalValue : GoValue → JsonOutcome
  | GoValue.vStr s => JsonOutcome.ok (jsonQuote s)
  | GoValue.vBytes bs => JsonOutcome.ok (jsonQuote (gs "base64 of len " ++ natToGoStr bs.length))
  | GoValue.vInt n => JsonOutcome.ok (intToGoStr n)
  | GoValue.vInt64 n => JsonOutcome.ok (intToGoStr n)
  | GoValue.vFloat finite p =>
    if finite then JsonOutcome.ok (natToGoStr p)
    else JsonOutcome.fail (gs "json: unsupported value: NaN or Inf")
  | GoValue.vTime inRange t =>
    if inRange then JsonOutcome.ok (jsonQuote (gs "rfc3339 " ++ natToGoStr t))
    else
      JsonOutcome.fail
        (gs "json: error calling MarshalJSON for type time.Time: Time.MarshalJSON: year outside of range [0,9999]")
  | GoValue.vDuration d => JsonOutcome.ok (intToGoStr d)
  | GoValue.vOther m _ => m

/-- First serialization failure among the values of a store, if any. -/
def firstMarshalError : Fields → Option GoStr
  | [] => none
  | p :: rest =>
    match jsonMarshalValue p.2 with
    | JsonOutcome.fail e => some e
    | JsonOutcome.ok _ => firstMarshalError rest

/-- Rendering of a store as one JSON object (key order as stored; Go's sort
of map keys only permutes members of the object). -/
def jsonRenderFields (f : Fields) : GoStr :=
  [lbraceC] ++
    joinWith (gs ",")
      (f.map (fun p =>
        jsonQuote p.1 ++ gs ":" ++
          (match jsonMarshalValue p.2 with
           | JsonOutcome.ok d => d
           | JsonOutcome.fail _ => []))) ++
  [rbraceC]

/-- Model of `json.Marshal` on a whole store: fails exactly when some value
fails to serialize. -/
def jsonMarshalFields (f : Fields) : JsonOutcome :=
  match firstMarshalError f with
  | some e => JsonOutcome.fail e
  | none => JsonOutcome.ok (jsonRenderFields f)

/-- True when an outcome is a success. -/
def JsonOutcome.isOk : JsonOutcome → Bool
  | JsonOutcome.ok _ => true
  | JsonOutcome.fail _ => false

/-- Model of the `Sabot` struct: the truncation limit and the behavior of
the two sinks.  `writerErr` is the error returned by `Writer.Write`, if any;
`altPresent` states whether `AltWriter` is non-nil, and `altWriterErr` the
error its write would return (the code discards it). -/
structure Sabot where
  maxLen : Int
  writerErr : Option GoErr
  altPresent : Bool
  altWriterErr : Option GoErr
deriving DecidableEq, Repr

/-- The field store assembled by `log` before truncation: call-site fields,
overlaid by the context's store, overlaid by the three reserved fields.  The
`ts` value is `time.Now().UTC()`, whose year always lies in [0,9999], so its
in-range flag is true. -/
def mergedFields (ctx : GoContext) (level msg : GoStr) (now : Nat) (kv : List GoValue) : Fields :=
  let ctxFields := getFields ctx
  let fields := newFields kv
  let fields := mergeInto fields ctxFields
  let fields := setF fields (gs "msg") (GoValue.vStr msg)
  let fields := setF fields (gs "level") (GoValue.vStr level)
  setF fields (gs "ts") (GoValue.vTime true now)

/-- The field store `log` hands to `json.Marshal`: the merged store after
truncation at the logger's limit. -/
def logFields (maxLen : Int) (ctx : GoContext) (level msg : GoStr) (now : Nat)
    (kv : List GoValue) : Fields :=
  Fields.truncate (mergedFields ctx level msg now kv) maxLen

/-- Model of the Go `%#v` rendering of a `Fields` map. -/
def goSyntaxFields (f : Fields) : GoStr :=
  gs "sabot.Fields(" ++
    joinWith (gs ", ")
      (f.map (fun p => '"' :: p.1 ++ gs "\": " ++ goSyntaxV p.2)) ++
  gs ")"

/-- The hand-built JSON fragment substituted when `json.Marshal` fails. -/
def fallbackFragment (err : GoErr) (fields : Fields) : GoStr :=
  [lbraceC] ++ gs "\"logerror\": \"" ++ err.plusV ++ gs "\", \"msg\": \"" ++
    goSyntaxFields fields ++ gs "\"" ++ [rbraceC]

/-- The line written to the alternate sink when the primary write fails. -/
def altWriteLine (err : GoErr) (fields : Fields) : GoStr :=
  logErrorKeyG ++ gs ": " ++ err.plusV ++ gs " with fields " ++ goSyntaxFields fields ++ goNL

/-- Observable effect of one emission: the bytes offered to the primary sink
and, when the fallback fires, the line offered to the alternate sink.  The
function is total: `log` has no error channel to its caller. -/
structure EmitResult where
  primaryLine : GoStr
  altLine : Option GoStr
deriving DecidableEq, Repr

/-- Body of `log`: build the store, marshal it (substituting the hand-built
fragment on failure), write it with a trailing newline, and on a primary
write failure with an alternate sink configured, write the diagnostic line
there; the alternate write's own error is discarded. -/
def logRun (sabot : Sabot) (ctx : GoContext) (level msg : GoStr) (now : Nat)
    (kv : List GoValue) : EmitResult :=
  let fields := logFields sabot.maxLen ctx level msg now kv
  let data :=
    match jsonMarshalFields fields with
    | JsonOutcome.ok d => d
    | JsonOutcome.fail e =>
      fallbackFragment (errorsWrapf (errorsErrorf e) (gs "failed to marshal log message")) fields
  let altLine :=
    match sabot.writerErr with
    | none => none
    | some werr =>
      if sabot.altPresent then
        some (altWriteLine (errorsWrapf werr (gs "failed to write")) fields)
      else none
  ⟨data ++ goNL, altLine⟩

/-- `Sabot.Info`, restricted to its field pipeline. -/
def infoFields (maxLen : Int) (ctx : GoContext) (msg : GoStr) (now : Nat)
    (kv : List GoValue) : Fields :=
  logFields maxLen ctx (gs "info") msg now kv

/-- `Sabot.Error`, restricted to its field pipeline: the rendered error is
appended to the call-site list before logging at level `error`. -/
def errorFields (maxLen : Int) (ctx : GoContext) (msg : GoStr) (err : GoErr) (now : Nat)
    (kv : List GoValue) : Fields :=
  logFields maxLen ctx (gs "error") msg now
    (kv ++ [GoValue.vStr (gs "error"), GoValue.vStr err.plusV])

/-- Well-formed key-value slices: even length, every key a string. -/
def wfKv : List GoValue → Bool
  | [] => true
  | GoValue.vStr _ :: _ :: rest => wfKv rest
  | _ => false

/-- First non-string key of a slice read as key-value pairs, if any. -/
def firstBadKey : List GoValue → Option GoValue
  | k :: _ :: rest =>
    match k with
    | GoValue.vStr _ => firstBadKey rest
    | bad => some bad
  | _ => none

/-- True when a value is not one of the native values whose serialization
fails: a non-finite float, or a timestamp whose year falls outside
[0,9999]. -/
def serOk : GoValue → Bool
  | GoValue.vFloat finite _ => finite
  | GoValue.vTime inRange _ => inRange
  | _ => true

/-- Marshal outcome of the last pair of the slice requesting key `k`:
`none` when no pair requests `k`; `some (some v)` when the last such pair
normalizes to `v`; `some none` when its value fails to serialize. -/
def lastReq (k : GoStr) : List GoValue → Option (Option GoValue)
  | key :: v :: rest =>
    match lastReq k rest with
    | some o => some o
    | none =>
      if key = GoValue.vStr k then
        some (match marshalUnknown v with
              | (nv, none) => some nv
              | (_, some _) => none)
      else none
  | _ => none

/-- True when some value position of the slice (read as key-value pairs)
fails to serialize in `marshalUnknown`. -/
def hasFail : List GoValue → Bool
  | _ :: v :: rest => ((marshalUnknown v).2).isSome || hasFail rest
  | _ => false

/-- Contexts built from `context.Background()` purely by `WithFields` calls
whose supplied values contain no natively-unserializable value (non-finite
float or out-of-range timestamp). -/
inductive AccumulatedSer : GoContext → Prop
  | bg : AccumulatedSer GoContext.background
  | step (c : GoContext) (kv : List GoValue) :
      AccumulatedSer c → (∀ v ∈ kv, serOk v = true) → AccumulatedSer (withFields c kv)

/-- Every value of the store serializes without failure. -/
def allSer (f : Fields) : Prop :=
  ∀ p ∈ f, (jsonMarshalValue p.2).isOk = true

/-- Reference to a Go map object. -/
abbrev MapRef := Nat

/-- The heap of live Go map objects; a reference indexes into `maps`. -/
structure Heap where
  maps : List Fields
deriving DecidableEq, Repr

/-- Dereference a map (out-of-range references read as empty). -/
def readMap (h : Heap) (r : MapRef) : Fields := h.maps.getD r []

/-- Allocate a fresh map object holding `f`. -/
def allocMap (h : Heap) (f : Fields) : Heap × MapRef :=
  (⟨h.maps ++ [f]⟩, h.maps.length)

/-- In-place Go map write `m[k] = v` on the object behind `r`. -/
def writeMap (h : Heap) (r : MapRef) (k : GoStr) (v : GoValue) : Heap :=
  ⟨h.maps.set r (setF (readMap h r) k v)⟩

/-- Write every pair of `l` into the object behind `r`, in order (the Go
`for key, val := range ... { m[key] = val }` loop). -/
def writeAll (h : Heap) (r : MapRef) (l : Fields) : Heap :=
  l.foldl (fun acc p => writeMap acc r p.1 p.2) h

/-- Contexts over the explicit heap: `withLogFields` attaches a reference to
a live map object under the package's `LogKey`. -/
inductive HContext where
  | background
  | withLogFields (parent : HContext) (r : MapRef)
  | withLogOther (parent : HContext) (rendering : GoStr)
  | withOtherValue (parent : HContext)
deriving DecidableEq, Repr

/-- `ctx.Value(LogKey)` over the heap model. -/
def hctxLogValue : HContext → Option (MapRef ⊕ GoStr)
  | HContext.background => none
  | HContext.withLogFields _ r => some (Sum.inl r)
  | HContext.withLogOther _ rend => some (Sum.inr rend)
  | HContext.withOtherValue p => hctxLogValue p

/-- Heap-level `getFields`: returns the attached map object itself when one
is present; the empty-store and type-mismatch branches allocate fresh maps
(Go composite literals). -/
def getFieldsH (h : Heap) (ctx : HContext) : Heap × MapRef :=
  match hctxLogValue ctx with
  | none => allocMap h []
  | some (Sum.inl r) => (h, r)
  | some (Sum.inr rend) =>
    allocMap h [(logErrorKeyG, GoValue.vStr (gs "failed to assert type Fields on " ++ rend))]

/-- Heap-level `copyFields`: allocate a fresh empty map and copy the context's
store into it pair by pair. -/
def copyFieldsH (h : Heap) (ctx : HContext) : Heap × MapRef :=
  let src := getFieldsH h ctx
  let cp := allocMap src.1 []
  (writeAll cp.1 cp.2 (readMap cp.1 src.2), cp.2)

/-- Heap-level `withFields`: copy the context's store, then write the pairs
of the freshly built `newFields kv` into the copy, and attach the copy.  The
store built by `newFields` involves only maps it allocates itself, so it is
taken denotationally. -/
def withFieldsH (h : Heap) (ctx : HContext) (kv : List GoValue) : Heap × HContext :=
  let cp := copyFieldsH h ctx
  let h2 := writeAll cp.1 cp.2 (newFields kv)
  (h2, HContext.withLogFields ctx cp.2)

/-- Denotation of a heap context as a pure context (each attached reference
replaced by the store it points to). -/
def absCtx (h : Heap) : HContext → GoContext
  | HContext.background => GoContext.background
  | HContext.withLogFields p r => GoContext.withLogValue (absCtx h p) (CtxVal.fieldsVal (readMap h r))
  | HContext.withLogOther p rend => GoContext.withLogValue (absCtx h p) (CtxVal.otherVal rend)
  | HContext.withOtherValue p => GoContext.withOtherValue (absCtx h p)

/-- Left-biased choice on optional values (Go map lookup through an overlay). -/
def orO (a b : Option GoValue) : Option GoValue :=
  match a with
  | some v => some v
  | none => b

theorem orO_none_left (b : Option GoValue) : orO none b = b := rfl

theorem orO_none_right (a : Option GoValue) : orO a none = a := by
  cases a <;> rfl

theorem orO_some (v : GoValue) (b : Option GoValue) : orO (some v) b = some v := rfl

theorem findF_nil (k : GoStr) : findF [] k = none := rfl

theorem findF_cons (p : GoStr × GoValue) (rest : Fields) (k : GoStr) :
    findF (p :: rest) k = if p.1 = k then some p.2 else findF rest k := rfl

theorem setF_nil (k : GoStr) (v : GoValue) : setF [] k v = [(k, v)] := rfl

theorem setF_cons (p : GoStr × GoValue) (rest : Fields) (k : GoStr) (v : GoValue) :
    setF (p :: rest) k v = if p.1 = k then (k, v) :: rest else p :: setF rest k v := rfl

theorem delF_cons (p : GoStr × GoValue) (rest : Fields) (k : GoStr) :
    delF (p :: rest) k = if p.1 = k then rest else p :: delF rest k := rfl

theorem keysF_nil : keysF [] = [] := rfl

theorem keysF_cons (p : GoStr × GoValue) (rest : Fields) :
    keysF (p :: rest) = p.1 :: keysF rest := rfl

theorem mergeInto_nil (f : Fields) : mergeInto f [] = f := rfl

theorem mergeInto_cons (f : Fields) (p : GoStr × GoValue) (rest : Fields) :
    mergeInto f (p :: rest) = mergeInto (setF f p.1 p.2) rest := rfl

theorem findF_setF_self (f : Fields) (k : GoStr) (v : GoValue) :
    findF (setF f k v) k = some v := by
  induction f with
  | nil => rw [setF_nil, findF_cons, if_pos rfl]
  | cons p rest ih =>
    rw [setF_cons]
    by_cases h : p.1 = k
    · rw [if_pos h, findF_cons, if_pos rfl]
    · rw [if_neg h, findF_cons, if_neg h, ih]

theorem findF_setF_ne (f : Fields) (k k' : GoStr) (v : GoValue) (h : k ≠ k') :
    findF (setF f k v) k' = findF f k' := by
  induction f with
  | nil => rw [setF_nil, findF_cons, if_neg h]
  | cons p rest ih =>
    rw [setF_cons]
    by_cases hp : p.1 = k
    · rw [if_pos hp, findF_cons, findF_cons, if_neg h]
      rw [if_neg (hp ▸ h)]
    · rw [if_neg hp, findF_cons, findF_cons, ih]

theorem findF_append (a b : Fields) (k : GoStr) :
    findF (a ++ b) k = orO (findF a k) (findF b k) := by
  induction a with
  | nil => rw [List.nil_append, findF_nil, orO_none_left]
  | cons p rest ih =>
    rw [List.cons_append, findF_cons, findF_cons]
    by_cases h : p.1 = k
    · rw [if_pos h, if_pos h, orO_some]
    · rw [if_neg h, if_neg h, ih]

theorem findF_mergeInto (f ov : Fields) (k : GoStr) :
    findF (mergeInto f ov) k = orO (findF ov.reverse k) (findF f k) := by
  induction ov generalizing f with
  | nil => rw [mergeInto_nil, List.reverse_nil, findF_nil, orO_none_left]
  | cons p rest ih =>
    rw [mergeInto_cons, ih, List.reverse_cons, findF_append]
    cases hrest : findF rest.reverse k with
    | some v => rfl
    | none =>
      rw [orO_none_left, orO_none_left, findF_cons, findF_nil]
      by_cases hk : p.1 = k
      · rw [if_pos hk, orO_some, ← hk, findF_setF_self]
      · rw [if_neg hk, orO_none_left, findF_setF_ne f p.1 k p.2 hk]

theorem findF_eq_none_iff (f : Fields) (k : GoStr) :
    findF f k = none ↔ k ∉ keysF f := by
  induction f with
  | nil =>
    rw [findF_nil, keysF_nil]
    exact ⟨fun _ => List.not_mem_nil k, fun _ => rfl⟩
  | cons p rest ih =>
    rw [findF_cons, keysF_cons]
    by_cases h : p.1 = k
    · rw [if_pos h]
      constructor
      · intro hc
        exact absurd hc (by simp)
      · intro hc
        exact absurd (h ▸ List.mem_cons_self p.1 (keysF rest)) hc
    · rw [if_neg h, ih]
      constructor
      · intro hn hmem
        rcases List.mem_cons.mp hmem with rfl | hm
        · exact h rfl
        · exact hn hm
      · intro hn hm
        exact hn (List.mem_cons_of_mem _ hm)

theorem findF_reverse_of_nodup (f : Fields) (k : GoStr) (h : (keysF f).Nodup) :
    findF f.reverse k = findF f k := by
  induction f with
  | nil => rfl
  | cons p rest ih =>
    rw [keysF_cons, List.nodup_cons] at h
    rw [List.reverse_cons, findF_append, ih h.2, findF_cons]
    by_cases hk : p.1 = k
    · have hnone : findF rest k = none := by
        rw [findF_eq_none_iff]
        rw [← hk]
        exact h.1
      rw [hnone, orO_none_left, if_pos hk, findF_cons, if_pos hk]
    · rw [if_neg hk, findF_cons, if_neg hk, findF_nil, orO_none_right]

theorem mem_keysF_setF (f : Fields) (k a : GoStr) (v : GoValue) :
    a ∈ keysF (setF f k v) ↔ a ∈ keysF f ∨ a = k := by
  induction f with
  | nil =>
    rw [setF_nil, keysF_cons, keysF_nil]
    simp
  | cons p rest ih =>
    rw [setF_cons]
    by_cases h : p.1 = k
    · rw [if_pos h, keysF_cons, keysF_cons]
      subst h
      simp only [List.mem_cons]
      tauto
    · rw [if_neg h, keysF_cons, keysF_cons]
      simp only [List.mem_cons]
      rw [ih]
      tauto

theorem nodup_keysF_setF (f : Fields) (k : GoStr) (v : GoValue)
    (h : (keysF f).Nodup) : (keysF (setF f k v)).Nodup := by
  induction f with
  | nil =>
    rw [setF_nil, keysF_cons, keysF_nil]
    exact List.nodup_singleton k
  | cons p rest ih =>
    rw [keysF_cons, List.nodup_cons] at h
    rw [setF_cons]
    by_cases hp : p.1 = k
    · rw [if_pos hp, keysF_cons, List.nodup_cons]
      exact ⟨hp ▸ h.1, h.2⟩
    · rw [if_neg hp, keysF_cons, List.nodup_cons]
      refine ⟨?_, ih h.2⟩
      intro hmem
      rcases (mem_keysF_setF rest k p.1 v).mp hmem with hm | hm
      · exact h.1 hm
      · exact hp hm

theorem nodup_keysF_mergeInto (f ov : Fields) (h : (keysF f).Nodup) :
    (keysF (mergeInto f ov)).Nodup := by
  induction ov generalizing f with
  | nil => exact h
  | cons p rest ih => exact ih (setF f p.1 p.2) (nodup_keysF_setF f p.1 p.2 h)

theorem delF_sublist (f : Fields) (k : GoStr) : List.Sublist (delF f k) f := by
  induction f with
  | nil => exact List.Sublist.refl []
  | cons p rest ih =>
    rw [delF_cons]
    by_cases h : p.1 = k
    · rw [if_pos h]
      exact List.sublist_cons_self p rest
    · rw [if_neg h]
      exact List.Sublist.cons₂ p ih

theorem nodup_keysF_delF (f : Fields) (k : GoStr) (h : (keysF f).Nodup) :
    (keysF (delF f k)).Nodup :=
  List.Nodup.sublist (List.Sublist.map Prod.fst (delF_sublist f k)) h

theorem findF_map_values (f : Fields) (g : GoValue → GoValue) (k : GoStr) :
    findF (f.map (fun p => (p.1, g p.2))) k = (findF f k).map g := by
  induction f with
  | nil => rfl
  | cons p rest ih =>
    rw [List.map_cons, findF_cons, findF_cons]
    dsimp only
    by_cases h : p.1 = k
    · rw [if_pos h, if_pos h]
      rfl
    · rw [if_neg h, if_neg h, ih]

theorem findF_truncate (f : Fields) (m : Int) (k : GoStr) :
    findF (Fields.truncate f m) k = (findF f k).map (truncOne m) := by
  show findF (if m - (truncationNoticeG.length : Int) < 1 then f
      else f.map (fun p => (p.1, truncVal (m - (truncationNoticeG.length : Int)) p.2))) k =
    (findF f k).map (truncOne m)
  by_cases hm : m - (truncationNoticeG.length : Int) < 1
  · rw [if_pos hm]
    have : truncOne m = fun v => v := by
      funext v
      show (if m - (truncationNoticeG.length : Int) < 1 then v
        else truncVal (m - (truncationNoticeG.length : Int)) v) = v
      rw [if_pos hm]
    rw [this]
    cases findF f k <;> rfl
  · rw [if_neg hm, findF_map_values]
    have : truncOne m = truncVal (m - (truncationNoticeG.length : Int)) := by
      funext v
      show (if m - (truncationNoticeG.length : Int) < 1 then v
        else truncVal (m - (truncationNoticeG.length : Int)) v) =
        truncVal (m - (truncationNoticeG.length : Int)) v
      rw [if_neg hm]
    rw [this]

theorem logErrorKey_ne_keyvals : logErrorKeyG ≠ gs "keyvals" := by decide

theorem nodup_keysF_logErrorFields (err : GoErr) (kv : List GoValue) :
    (keysF (logErrorFields err kv)).Nodup := by
  rw [logErrorFields, keysF_cons, keysF_cons, keysF_nil]
  exact List.Nodup.cons (by simpa using logErrorKey_ne_keyvals) (List.nodup_singleton _)

theorem nodup_keysF_buildFields (kvAll : List GoValue) :
    ∀ (kv : List GoValue) (fields : Fields),
      (keysF fields).Nodup → (keysF (buildFields kvAll fields kv)).Nodup
  | key :: v :: rest, fields, h => by
    cases key with
    | vStr k =>
      show (keysF (match marshalUnknown v with
        | (nv, none) => buildFields kvAll (setF fields k nv) rest
        | (nv, some err) =>
          buildFields kvAll
            (mergeInto (delF (setF fields k nv) k) (logErrorFields err kvAll)) rest)).Nodup
      rcases hm : marshalUnknown v with ⟨nv, e⟩
      cases e with
      | none =>
        exact nodup_keysF_buildFields kvAll rest _ (nodup_keysF_setF fields k nv h)
      | some err =>
        exact nodup_keysF_buildFields kvAll rest _
          (nodup_keysF_mergeInto _ _ (nodup_keysF_delF _ k (nodup_keysF_setF fields k nv h)))
    | vBytes bs => exact nodup_keysF_logErrorFields _ _
    | vInt n => exact nodup_keysF_logErrorFields _ _
    | vInt64 n => exact nodup_keysF_logErrorFields _ _
    | vFloat fin p => exact nodup_keysF_logErrorFields _ _
    | vTime inR t => exact nodup_keysF_logErrorFields _ _
    | vDuration d => exact nodup_keysF_logErrorFields _ _
    | vOther m r => exact nodup_keysF_logErrorFields _ _
  | [], _, h => h
  | [_], _, h => h

theorem nodup_keysF_newFields (kv : List GoValue) :
    (keysF (newFields kv)).Nodup := by
  rw [newFields]
  by_cases h : kv.length % 2 ≠ 0
  · rw [if_pos h]
    exact nodup_keysF_logErrorFields _ _
  · rw [if_neg h]
    exact nodup_keysF_buildFields kv kv [] List.nodup_nil

theorem getFields_withFields (ctx : GoContext) (kv : List GoValue) :
    getFields (withFields ctx kv) = mergeInto (copyFields ctx) (newFields kv) := rfl

theorem nodup_keysF_copyFields (ctx : GoContext) :
    (keysF (copyFields ctx)).Nodup :=
  nodup_keysF_mergeInto [] (getFields ctx) List.nodup_nil

theorem nodup_keysF_getFields_withFields (ctx : GoContext) (kv : List GoValue) :
    (keysF (getFields (withFields ctx kv))).Nodup := by
  rw [getFields_withFields]
  exact nodup_keysF_mergeInto _ _ (nodup_keysF_copyFields ctx)

theorem findF_copyFields (ctx : GoContext) (k : GoStr)
    (h : (keysF (getFields ctx)).Nodup) :
    findF (copyFields ctx) k = findF (getFields ctx) k := by
  rw [copyFields, findF_mergeInto, findF_nil, orO_none_right,
    findF_reverse_of_nodup _ _ h]

theorem findF_getFields_withFields (ctx : GoContext) (kv : List GoValue) (k : GoStr)
    (h : (keysF (getFields ctx)).Nodup) :
    findF (getFields (withFields ctx kv)) k =
      orO (findF (newFields kv) k) (findF (getFields ctx) k) := by
  rw [getFields_withFields, findF_mergeInto,
    findF_reverse_of_nodup _ _ (nodup_keysF_newFields kv), findF_copyFields ctx k h]

theorem buildFields_nil (kvAll : List GoValue) (fields : Fields) :
    buildFields kvAll fields [] = fields := rfl

theorem buildFields_single (kvAll : List GoValue) (fields : Fields) (x : GoValue) :
    buildFields kvAll fields [x] = fields := rfl

theorem buildFields_cons_str (kvAll : List GoValue) (fields : Fields) (s : GoStr)
    (v : GoValue) (rest : List GoValue) :
    buildFields kvAll fields (GoValue.vStr s :: v :: rest) =
      (match marshalUnknown v with
       | (nv, none) => buildFields kvAll (setF fields s nv) rest
       | (nv, some err) =>
         buildFields kvAll
           (mergeInto (delF (setF fields s nv) s) (logErrorFields err kvAll)) rest) := rfl

theorem buildFields_cons_ok (kvAll : List GoValue) (fields : Fields) (s : GoStr)
    (v nv : GoValue) (rest : List GoValue) (h : marshalUnknown v = (nv, none)) :
    buildFields kvAll fields (GoValue.vStr s :: v :: rest) =
      buildFields kvAll (setF fields s nv) rest := by
  rw [buildFields_cons_str, h]

theorem buildFields_cons_fail (kvAll : List GoValue) (fields : Fields) (s : GoStr)
    (v nv : GoValue) (err : GoErr) (rest : List GoValue)
    (h : marshalUnknown v = (nv, some err)) :
    buildFields kvAll fields (GoValue.vStr s :: v :: rest) =
      buildFields kvAll
        (mergeInto (delF (setF fields s nv) s) (logErrorFields err kvAll)) rest := by
  rw [buildFields_cons_str, h]

theorem firstBadKey_cons_str (s : GoStr) (v : GoValue) (rest : List GoValue) :
    firstBadKey (GoValue.vStr s :: v :: rest) = firstBadKey rest := rfl

theorem lastReq_cons (k : GoStr) (key v : GoValue) (rest : List GoValue) :
    lastReq k (key :: v :: rest) =
      (match lastReq k rest with
       | some o => some o
       | none =>
         if key = GoValue.vStr k then
           some (match marshalUnknown v with
                 | (nv, none) => some nv
                 | (_, some _) => none)
         else none) := rfl

theorem buildFields_firstBadKey (kvAll : List GoValue) :
    ∀ (kv : List GoValue) (fields : Fields) (bad : GoValue),
      firstBadKey kv = some bad →
      buildFields kvAll fields kv =
        logErrorFields
          (errorsErrorf (gs "non-string field key: " ++ goSyntaxV bad)) kvAll
  | key :: v :: rest, fields, bad, h => by
    cases key with
    | vStr s =>
      rw [firstBadKey_cons_str] at h
      rw [buildFields_cons_str]
      rcases hm : marshalUnknown v with ⟨nv, e⟩
      cases e with
      | none => exact buildFields_firstBadKey kvAll rest _ bad h
      | some err => exact buildFields_firstBadKey kvAll rest _ bad h
    | vBytes bs => cases h; rfl
    | vInt n => cases h; rfl
    | vInt64 n => cases h; rfl
    | vFloat fin p => cases h; rfl
    | vTime inR t => cases h; rfl
    | vDuration d => cases h; rfl
    | vOther m r => cases h; rfl
  | [], _, bad, h => nomatch h
  | [_], _, bad, h => nomatch h

theorem findF_logErrorFields (err : GoErr) (kv : List GoValue) (k : GoStr) :
    findF (logErrorFields err kv) k =
      if k = logErrorKeyG then some (GoValue.vStr err.plusV)
      else if k = gs "keyvals" then some (GoValue.vStr (goSyntaxKv kv))
      else none := by
  rw [logErrorFields, findF_cons, findF_cons, findF_nil]
  by_cases h1 : k = logErrorKeyG
  · rw [if_pos h1, if_pos h1.symm]
  · rw [if_neg h1, if_neg (fun hc => h1 hc.symm)]
    by_cases h2 : k = gs "keyvals"
    · rw [if_pos h2, if_pos h2.symm]
    · rw [if_neg h2, if_neg (fun hc => h2 hc.symm)]

theorem findF_delF (f : Fields) (j k : GoStr) (h : (keysF f).Nodup) :
    findF (delF f j) k = if j = k then none else findF f k := by
  induction f with
  | nil =>
    show findF [] k = if j = k then none else findF [] k
    by_cases hjk : j = k
    · rw [if_pos hjk]
      exact findF_nil k
    · rw [if_neg hjk]
  | cons p rest ih =>
    rw [keysF_cons, List.nodup_cons] at h
    rw [delF_cons]
    by_cases hpj : p.1 = j
    · rw [if_pos hpj]
      by_cases hjk : j = k
      · rw [if_pos hjk, findF_eq_none_iff]
        rw [← hjk, ← hpj]
        exact h.1
      · rw [if_neg hjk, findF_cons, if_neg (fun hc => hjk (hpj ▸ hc))]
    · rw [if_neg hpj, findF_cons, findF_cons, ih h.2]
      by_cases hpk : p.1 = k
      · rw [if_pos hpk, if_neg (fun hc => hpj (hpk.trans hc.symm)), if_pos hpk]
      · rw [if_neg hpk, if_neg hpk]

theorem findF_rev_logErrorFields (err : GoErr) (kvAll : List GoValue) (k : GoStr)
    (hk1 : k ≠ logErrorKeyG) (hk2 : k ≠ gs "keyvals") :
    findF (logErrorFields err kvAll).reverse k = none := by
  show findF [(gs "keyvals", GoValue.vStr (goSyntaxKv kvAll)),
    (logErrorKeyG, GoValue.vStr err.plusV)] k = none
  rw [findF_cons, if_neg (fun hc => hk2 hc.symm), findF_cons,
    if_neg (fun hc => hk1 hc.symm), findF_nil]

theorem findF_buildFields (kvAll : List GoValue) (k : GoStr)
    (hk1 : k ≠ logErrorKeyG) (hk2 : k ≠ gs "keyvals") :
    ∀ (kv : List GoValue) (fields : Fields), (keysF fields).Nodup →
      firstBadKey kv = none →
      findF (buildFields kvAll fields kv) k =
        (match lastReq k kv with
         | some o => o
         | none => findF fields k)
  | key :: v :: rest, fields, hnd, hbad => by
    cases key with
    | vStr s =>
      rw [firstBadKey_cons_str] at hbad
      rcases hm : marshalUnknown v with ⟨nv, e⟩
      cases e with
      | none =>
        rw [buildFields_cons_ok kvAll fields s v nv rest hm]
        rw [findF_buildFields kvAll k hk1 hk2 rest _ (nodup_keysF_setF fields s nv hnd) hbad]
        rw [lastReq_cons]
        cases hlr : lastReq k rest with
        | some o => simp only [hlr]
        | none =>
          simp only [hlr, hm]
          by_cases hsk : s = k
          · subst hsk
            rw [if_pos rfl, findF_setF_self]
          · rw [if_neg (fun hc => hsk (by injection hc)), findF_setF_ne fields s k nv hsk]
      | some err =>
        rw [buildFields_cons_fail kvAll fields s v nv err rest hm]
        rw [findF_buildFields kvAll k hk1 hk2 rest _
          (nodup_keysF_mergeInto _ _
            (nodup_keysF_delF _ s (nodup_keysF_setF fields s nv hnd))) hbad]
        rw [lastReq_cons]
        cases hlr : lastReq k rest with
        | some o => simp only [hlr]
        | none =>
          simp only [hlr, hm]
          rw [findF_mergeInto, findF_rev_logErrorFields err kvAll k hk1 hk2, orO_none_left,
            findF_delF _ s k (nodup_keysF_setF fields s nv hnd)]
          by_cases hsk : s = k
          · subst hsk
            rw [if_pos rfl, if_pos rfl]
          · rw [if_neg hsk, if_neg (fun hc => hsk (by injection hc)),
              findF_setF_ne fields s k nv hsk]
    | vBytes bs => nomatch hbad
    | vInt n => nomatch hbad
    | vInt64 n => nomatch hbad
    | vFloat fin p => nomatch hbad
    | vTime inR t => nomatch hbad
    | vDuration d => nomatch hbad
    | vOther m r => nomatch hbad
  | [], fields, hnd, _ => rfl
  | [_], fields, hnd, _ => rfl

theorem wfKv_even : ∀ (kv : List GoValue), wfKv kv = true → kv.length % 2 = 0
  | [], _ => rfl
  | [_], h => absurd h (by simp [wfKv])
  | key :: v :: rest, h => by
    cases key with
    | vStr s =>
      have hr : wfKv rest = true := h
      have ih := wfKv_even rest hr
      simp only [List.length_cons]
      omega
    | vBytes bs => exact absurd h (by simp [wfKv])
    | vInt n => exact absurd h (by simp [wfKv])
    | vInt64 n => exact absurd h (by simp [wfKv])
    | vFloat fin p => exact absurd h (by simp [wfKv])
    | vTime inR t => exact absurd h (by simp [wfKv])
    | vDuration d => exact absurd h (by simp [wfKv])
    | vOther m r => exact absurd h (by simp [wfKv])

theorem wfKv_firstBadKey : ∀ (kv : List GoValue), wfKv kv = true → firstBadKey kv = none
  | [], _ => rfl
  | [_], h => absurd h (by simp [wfKv])
  | key :: v :: rest, h => by
    cases key with
    | vStr s => exact wfKv_firstBadKey rest h
    | vBytes bs => exact absurd h (by simp [wfKv])
    | vInt n => exact absurd h (by simp [wfKv])
    | vInt64 n => exact absurd h (by simp [wfKv])
    | vFloat fin p => exact absurd h (by simp [wfKv])
    | vTime inR t => exact absurd h (by simp [wfKv])
    | vDuration d => exact absurd h (by simp [wfKv])
    | vOther m r => exact absurd h (by simp [wfKv])

theorem newFields_wf (kv : List GoValue) (h : wfKv kv = true) :
    newFields kv = buildFields kv [] kv := by
  rw [newFields, if_neg]
  simp only [ne_eq, Decidable.not_not]
  exact wfKv_even kv h

theorem findF_newFields (kv : List GoValue) (k : GoStr) (h : wfKv kv = true)
    (hk1 : k ≠ logErrorKeyG) (hk2 : k ≠ gs "keyvals") :
    findF (newFields kv) k =
      (match lastReq k kv with
       | some o => o
       | none => none) := by
  rw [newFields_wf kv h,
    findF_buildFields kv k hk1 hk2 kv [] List.nodup_nil (wfKv_firstBadKey kv h)]
  cases lastReq k kv <;> rfl

theorem mem_setF (f : Fields) (k : GoStr) (v : GoValue) (p : GoStr × GoValue)
    (h : p ∈ setF f k v) : p ∈ f ∨ p = (k, v) := by
  induction f with
  | nil =>
    rw [setF_nil] at h
    exact Or.inr (List.mem_singleton.mp h)
  | cons q rest ih =>
    rw [setF_cons] at h
    by_cases hq : q.1 = k
    · rw [if_pos hq] at h
      rcases List.mem_cons.mp h with rfl | hm
      · exact Or.inr rfl
      · exact Or.inl (List.mem_cons_of_mem q hm)
    · rw [if_neg hq] at h
      rcases List.mem_cons.mp h with rfl | hm
      · exact Or.inl (List.mem_cons_self p rest)
      · rcases ih hm with hm' | hm'
        · exact Or.inl (List.mem_cons_of_mem q hm')
        · exact Or.inr hm'

theorem mem_delF (f : Fields) (k : GoStr) (p : GoStr × GoValue)
    (h : p ∈ delF f k) : p ∈ f :=
  (delF_sublist f k).subset h

theorem mem_mergeInto (f ov : Fields) (p : GoStr × GoValue)
    (h : p ∈ mergeInto f ov) : p ∈ f ∨ p ∈ ov := by
  induction ov generalizing f with
  | nil => exact Or.inl h
  | cons q rest ih =>
    rw [mergeInto_cons] at h
    rcases ih _ h with hm | hm
    · rcases mem_setF f q.1 q.2 p hm with hm' | hm'
      · exact Or.inl hm'
      · exact Or.inr (hm' ▸ List.mem_cons_self q rest)
    · exact Or.inr (List.mem_cons_of_mem q hm)

theorem allSer_setF (f : Fields) (k : GoStr) (v : GoValue) (hf : allSer f)
    (hv : (jsonMarshalValue v).isOk = true) : allSer (setF f k v) := by
  intro p hp
  rcases mem_setF f k v p hp with hm | hm
  · exact hf p hm
  · rw [hm]
    exact hv

theorem allSer_delF (f : Fields) (k : GoStr) (hf : allSer f) : allSer (delF f k) :=
  fun p hp => hf p (mem_delF f k p hp)

theorem allSer_mergeInto (f ov : Fields) (hf : allSer f) (hov : allSer ov) :
    allSer (mergeInto f ov) := by
  intro p hp
  rcases mem_mergeInto f ov p hp with hm | hm
  · exact hf p hm
  · exact hov p hm

theorem allSer_nil : allSer [] := by
  intro p hp
  exact absurd hp (List.not_mem_nil p)

theorem allSer_logErrorFields (err : GoErr) (kv : List GoValue) :
    allSer (logErrorFields err kv) := by
  intro p hp
  rcases List.mem_cons.mp hp with rfl | hp
  · rfl
  · rcases List.mem_singleton.mp hp with rfl
    rfl

theorem ser_of_marshalUnknown_ok (v nv : GoValue) (hfin : serOk v = true)
    (h : marshalUnknown v = (nv, none)) : (jsonMarshalValue nv).isOk = true := by
  cases v with
  | vStr s => injection h with h1 _ ; rw [← h1] ; rfl
  | vBytes bs => injection h with h1 _ ; rw [← h1] ; rfl
  | vInt n => injection h with h1 _ ; rw [← h1] ; rfl
  | vInt64 n => injection h with h1 _ ; rw [← h1] ; rfl
  | vFloat fin p =>
    injection h with h1 _
    rw [← h1]
    have hfin' : fin = true := hfin
    rw [hfin']
    rfl
  | vTime inR t =>
    injection h with h1 _
    rw [← h1]
    have hin : inR = true := hfin
    rw [hin]
    rfl
  | vDuration d => injection h with h1 _ ; rw [← h1] ; rfl
  | vOther m r =>
    cases m with
    | ok data => injection h with h1 _ ; rw [← h1] ; rfl
    | fail e =>
      exact absurd h (by simp [marshalUnknown])

theorem marshalUnknown_fail_val (v nv : GoValue) (err : GoErr)
    (h : marshalUnknown v = (nv, some err)) : nv = GoValue.vStr logErrorKeyG := by
  cases v with
  | vStr s => exact absurd h (by simp [marshalUnknown])
  | vBytes bs => exact absurd h (by simp [marshalUnknown])
  | vInt n => exact absurd h (by simp [marshalUnknown])
  | vInt64 n => exact absurd h (by simp [marshalUnknown])
  | vFloat fin p => exact absurd h (by simp [marshalUnknown])
  | vTime inR t => exact absurd h (by simp [marshalUnknown])
  | vDuration d => exact absurd h (by simp [marshalUnknown])
  | vOther m r =>
    cases m with
    | ok data => exact absurd h (by simp [marshalUnknown])
    | fail e =>
      injection h with h1 _
      exact h1.symm

theorem allSer_buildFields (kvAll : List GoValue) :
    ∀ (kv : List GoValue) (fields : Fields), allSer fields →
      (∀ v ∈ kv, serOk v = true) → allSer (buildFields kvAll fields kv)
  | key :: v :: rest, fields, hf, hfin => by
    have hfinrest : ∀ u ∈ rest, serOk u = true := fun u hu =>
      hfin u (List.mem_cons_of_mem _ (List.mem_cons_of_mem _ hu))
    cases key with
    | vStr s =>
      rcases hm : marshalUnknown v with ⟨nv, e⟩
      cases e with
      | none =>
        rw [buildFields_cons_ok kvAll fields s v nv rest hm]
        exact allSer_buildFields kvAll rest _
          (allSer_setF fields s nv hf
            (ser_of_marshalUnknown_ok v nv
              (hfin v (List.mem_cons_of_mem _ (List.mem_cons_self v rest))) hm))
          hfinrest
      | some err =>
        rw [buildFields_cons_fail kvAll fields s v nv err rest hm]
        refine allSer_buildFields kvAll rest _ ?_ hfinrest
        refine allSer_mergeInto _ _ (allSer_delF _ s ?_) (allSer_logErrorFields err kvAll)
        refine allSer_setF fields s nv hf ?_
        rw [marshalUnknown_fail_val v nv err hm]
        rfl
    | vBytes bs => exact allSer_logErrorFields _ _
    | vInt n => exact allSer_logErrorFields _ _
    | vInt64 n => exact allSer_logErrorFields _ _
    | vFloat fin p => exact allSer_logErrorFields _ _
    | vTime inR t => exact allSer_logErrorFields _ _
    | vDuration d => exact allSer_logErrorFields _ _
    | vOther m r => exact allSer_logErrorFields _ _
  | [], _, hf, _ => hf
  | [_], _, hf, _ => hf

theorem allSer_newFields (kv : List GoValue) (hfin : ∀ v ∈ kv, serOk v = true) :
    allSer (newFields kv) := by
  rw [newFields]
  by_cases h : kv.length % 2 ≠ 0
  · rw [if_pos h]
    exact allSer_logErrorFields _ _
  · rw [if_neg h]
    exact allSer_buildFields kv kv [] allSer_nil hfin

theorem allSer_getFields_acc (ctx : GoContext) (h : AccumulatedSer ctx) :
    allSer (getFields ctx) := by
  induction h with
  | bg => exact allSer_nil
  | step c kv hc hfin ih =>
    rw [getFields_withFields]
    exact allSer_mergeInto _ _
      (allSer_mergeInto _ _ allSer_nil ih)
      (allSer_newFields kv hfin)

theorem ser_truncVal (m : Int) (v : GoValue) (h : (jsonMarshalValue v).isOk = true) :
    (jsonMarshalValue (truncVal m v)).isOk = true := by
  cases v with
  | vStr s =>
    show (jsonMarshalValue (if m < (s.length : Int)
      then GoValue.vStr (s.take m.toNat ++ truncationNoticeG) else GoValue.vStr s)).isOk = true
    by_cases hm : m < (s.length : Int)
    · rw [if_pos hm]
      rfl
    · rw [if_neg hm]
      rfl
  | vBytes bs => exact h
  | vInt n => exact h
  | vInt64 n => exact h
  | vFloat fin p => exact h
  | vTime inR t => exact h
  | vDuration d => exact h
  | vOther m' r => exact h

theorem allSer_truncate (f : Fields) (m : Int) (hf : allSer f) :
    allSer (Fields.truncate f m) := by
  show allSer (if m - (truncationNoticeG.length : Int) < 1 then f
    else f.map (fun p => (p.1, truncVal (m - (truncationNoticeG.length : Int)) p.2)))
  by_cases hm : m - (truncationNoticeG.length : Int) < 1
  · rw [if_pos hm]
    exact hf
  · rw [if_neg hm]
    intro p hp
    rcases List.mem_map.mp hp with ⟨q, hq, rfl⟩
    exact ser_truncVal _ q.2 (hf q hq)

theorem allSer_mergedFields (ctx : GoContext) (level msg : GoStr) (now : Nat)
    (kv : List GoValue) (hctx : allSer (getFields ctx))
    (hkv : ∀ v ∈ kv, serOk v = true) :
    allSer (mergedFields ctx level msg now kv) := by
  rw [mergedFields]
  refine allSer_setF _ _ _ (allSer_setF _ _ _ (allSer_setF _ _ _ ?_ rfl) rfl) rfl
  exact allSer_mergeInto _ _ (allSer_newFields kv hkv) hctx

theorem firstMarshalError_eq_none (f : Fields) (h : allSer f) :
    firstMarshalError f = none := by
  induction f with
  | nil => rfl
  | cons p rest ih =>
    show (match jsonMarshalValue p.2 with
      | JsonOutcome.fail e => some e
      | JsonOutcome.ok _ => firstMarshalError rest) = none
    cases hj : jsonMarshalValue p.2 with
    | ok d => exact ih (fun q hq => h q (List.mem_cons_of_mem p hq))
    | fail e =>
      have := h p (List.mem_cons_self p rest)
      rw [hj] at this
      exact absurd this (by simp [JsonOutcome.isOk])

theorem jsonMarshalFields_isOk (f : Fields) (h : allSer f) :
    (jsonMarshalFields f).isOk = true := by
  rw [jsonMarshalFields, firstMarshalError_eq_none f h]
  rfl

theorem lastReq_cons_none (k : GoStr) (key v : GoValue) (rest : List GoValue)
    (h : lastReq k (key :: v :: rest) = none) :
    lastReq k rest = none ∧ key ≠ GoValue.vStr k := by
  rw [lastReq_cons] at h
  cases hlr : lastReq k rest with
  | some o =>
    rw [hlr] at h
    exact absurd h (by simp)
  | none =>
    rw [hlr] at h
    refine ⟨rfl, ?_⟩
    intro hc
    rw [if_pos hc] at h
    exact absurd h (by simp)

theorem findF_rev_logErrorFields_lek (err : GoErr) (kvAll : List GoValue) :
    findF (logErrorFields err kvAll).reverse logErrorKeyG =
      some (GoValue.vStr err.plusV) := by
  have hne : gs "keyvals" ≠ logErrorKeyG := by decide
  show findF [(gs "keyvals", GoValue.vStr (goSyntaxKv kvAll)),
    (logErrorKeyG, GoValue.vStr err.plusV)] logErrorKeyG = _
  rw [findF_cons, if_neg hne, findF_cons, if_pos rfl]

theorem findF_rev_logErrorFields_kvk (err : GoErr) (kvAll : List GoValue) :
    findF (logErrorFields err kvAll).reverse (gs "keyvals") =
      some (GoValue.vStr (goSyntaxKv kvAll)) := by
  show findF [(gs "keyvals", GoValue.vStr (goSyntaxKv kvAll)),
    (logErrorKeyG, GoValue.vStr err.plusV)] (gs "keyvals") = _
  rw [findF_cons, if_pos rfl]

theorem hasFail_cons (key v : GoValue) (rest : List GoValue) :
    hasFail (key :: v :: rest) = (((marshalUnknown v).2).isSome || hasFail rest) := rfl

theorem diag_of_buildFields_hasFail (kvAll : List GoValue) :
    ∀ (kv : List GoValue) (fields : Fields), (keysF fields).Nodup →
      firstBadKey kv = none →
      lastReq logErrorKeyG kv = none → lastReq (gs "keyvals") kv = none →
      (hasFail kv = true ∨
        ((findF fields logErrorKeyG).isSome ∧ (findF fields (gs "keyvals")).isSome)) →
      (findF (buildFields kvAll fields kv) logErrorKeyG).isSome ∧
        (findF (buildFields kvAll fields kv) (gs "keyvals")).isSome
  | key :: v :: rest, fields, hnd, hbad, hl1, hl2, hin => by
    cases key with
    | vStr s =>
      rw [firstBadKey_cons_str] at hbad
      rcases lastReq_cons_none _ _ _ _ hl1 with ⟨hl1r, hs1⟩
      rcases lastReq_cons_none _ _ _ _ hl2 with ⟨hl2r, hs2⟩
      have hs1' : s ≠ logErrorKeyG := fun hc => hs1 (by rw [hc])
      have hs2' : s ≠ gs "keyvals" := fun hc => hs2 (by rw [hc])
      rcases hm : marshalUnknown v with ⟨nv, e⟩
      cases e with
      | none =>
        rw [buildFields_cons_ok kvAll fields s v nv rest hm]
        refine diag_of_buildFields_hasFail kvAll rest _
          (nodup_keysF_setF fields s nv hnd) hbad hl1r hl2r ?_
        rcases hin with hin | hin
        · rw [hasFail_cons, hm] at hin
          simp only [Option.isSome_none, Bool.false_or] at hin
          exact Or.inl hin
        · refine Or.inr ⟨?_, ?_⟩
          · rw [findF_setF_ne fields s logErrorKeyG nv hs1']
            exact hin.1
          · rw [findF_setF_ne fields s (gs "keyvals") nv hs2']
            exact hin.2
      | some err =>
        rw [buildFields_cons_fail kvAll fields s v nv err rest hm]
        refine diag_of_buildFields_hasFail kvAll rest _
          (nodup_keysF_mergeInto _ _
            (nodup_keysF_delF _ s (nodup_keysF_setF fields s nv hnd))) hbad hl1r hl2r ?_
        refine Or.inr ⟨?_, ?_⟩
        · rw [findF_mergeInto, findF_rev_logErrorFields_lek err kvAll, orO_some]
          rfl
        · rw [findF_mergeInto, findF_rev_logErrorFields_kvk err kvAll, orO_some]
          rfl
    | vBytes bs => nomatch hbad
    | vInt n => nomatch hbad
    | vInt64 n => nomatch hbad
    | vFloat fin p => nomatch hbad
    | vTime inR t => nomatch hbad
    | vDuration d => nomatch hbad
    | vOther m r => nomatch hbad
  | [], fields, hnd, _, _, _, hin => by
    rcases hin with hin | hin
    · exact absurd hin (by simp [hasFail])
    · exact hin
  | [_], fields, hnd, _, _, _, hin => by
    rcases hin with hin | hin
    · exact absurd hin (by simp [hasFail])
    · exact hin

theorem newFields_malformed (kv : List GoValue)
    (h : kv.length % 2 ≠ 0 ∨ ∃ bad, firstBadKey kv = some bad) :
    ∃ e, newFields kv = logErrorFields (errorsErrorf e) kv := by
  rw [newFields]
  by_cases hodd : kv.length % 2 ≠ 0
  · rw [if_pos hodd]
    exact ⟨gs "cannot create fields from odd count", rfl⟩
  · rw [if_neg hodd]
    rcases h with h | ⟨bad, hbad⟩
    · exact absurd h hodd
    · exact ⟨gs "non-string field key: " ++ goSyntaxV bad,
        buildFields_firstBadKey kv kv [] bad hbad⟩

theorem mergedFields_def (ctx : GoContext) (level msg : GoStr) (now : Nat)
    (kv : List GoValue) :
    mergedFields ctx level msg now kv =
      setF (setF (setF (mergeInto (newFields kv) (getFields ctx))
        (gs "msg") (GoValue.vStr msg)) (gs "level") (GoValue.vStr level))
        (gs "ts") (GoValue.vTime true now) := rfl

theorem findF_mergedFields_ts (ctx : GoContext) (level msg : GoStr) (now : Nat)
    (kv : List GoValue) :
    findF (mergedFields ctx level msg now kv) (gs "ts") =
      some (GoValue.vTime true now) := by
  rw [mergedFields_def, findF_setF_self]

theorem findF_mergedFields_level (ctx : GoContext) (level msg : GoStr) (now : Nat)
    (kv : List GoValue) :
    findF (mergedFields ctx level msg now kv) (gs "level") = some (GoValue.vStr level) := by
  rw [mergedFields_def, findF_setF_ne _ _ _ _ (by decide), findF_setF_self]

theorem findF_mergedFields_msg (ctx : GoContext) (level msg : GoStr) (now : Nat)
    (kv : List GoValue) :
    findF (mergedFields ctx level msg now kv) (gs "msg") = some (GoValue.vStr msg) := by
  rw [mergedFields_def, findF_setF_ne _ _ _ _ (by decide),
    findF_setF_ne _ _ _ _ (by decide), findF_setF_self]

theorem findF_mergedFields_other (ctx : GoContext) (level msg : GoStr) (now : Nat)
    (kv : List GoValue) (k : GoStr) (h1 : k ≠ gs "msg") (h2 : k ≠ gs "level")
    (h3 : k ≠ gs "ts") (hnd : (keysF (getFields ctx)).Nodup) :
    findF (mergedFields ctx level msg now kv) k =
      orO (findF (getFields ctx) k) (findF (newFields kv) k) := by
  rw [mergedFields_def, findF_setF_ne _ _ _ _ (fun hc => h3 hc.symm),
    findF_setF_ne _ _ _ _ (fun hc => h2 hc.symm),
    findF_setF_ne _ _ _ _ (fun hc => h1 hc.symm),
    findF_mergeInto, findF_reverse_of_nodup _ _ hnd]

theorem findF_logFields (maxLen : Int) (ctx : GoContext) (level msg : GoStr)
    (now : Nat) (kv : List GoValue) (k : GoStr) :
    findF (logFields maxLen ctx level msg now kv) k =
      (findF (mergedFields ctx level msg now kv) k).map (truncOne maxLen) := by
  rw [logFields, findF_truncate]

theorem readMap_def (h : Heap) (r : MapRef) : readMap h r = (h.maps[r]?).getD [] :=
  List.getD_eq_getElem?_getD h.maps r []

theorem length_writeMap (h : Heap) (r : MapRef) (k : GoStr) (v : GoValue) :
    (writeMap h r k v).maps.length = h.maps.length :=
  List.length_set h.maps r _

theorem length_writeAll (h : Heap) (r : MapRef) (l : Fields) :
    (writeAll h r l).maps.length = h.maps.length := by
  induction l generalizing h with
  | nil => rfl
  | cons p rest ih =>
    show (writeAll (writeMap h r p.1 p.2) r rest).maps.length = h.maps.length
    rw [ih, length_writeMap]

theorem length_allocMap (h : Heap) (f : Fields) :
    (allocMap h f).1.maps.length = h.maps.length + 1 := by
  show (h.maps ++ [f]).length = h.maps.length + 1
  rw [List.length_append, List.length_cons, List.length_nil]

theorem readMap_writeMap_ne (h : Heap) (r r' : MapRef) (k : GoStr) (v : GoValue)
    (hne : r' ≠ r) : readMap (writeMap h r' k v) r = readMap h r := by
  rw [readMap_def, readMap_def]
  show ((h.maps.set r' _)[r]?).getD [] = (h.maps[r]?).getD []
  rw [List.getElem?_set_ne hne]

theorem readMap_writeMap_self (h : Heap) (r : MapRef) (k : GoStr) (v : GoValue)
    (hr : r < h.maps.length) :
    readMap (writeMap h r k v) r = setF (readMap h r) k v := by
  rw [readMap_def]
  show ((h.maps.set r (setF (readMap h r) k v))[r]?).getD [] = setF (readMap h r) k v
  rw [List.getElem?_set_eq_of_lt _ hr, Option.getD_some]

theorem readMap_writeAll_ne (h : Heap) (cp r : MapRef) (l : Fields) (hne : cp ≠ r) :
    readMap (writeAll h cp l) r = readMap h r := by
  induction l generalizing h with
  | nil => rfl
  | cons p rest ih =>
    show readMap (writeAll (writeMap h cp p.1 p.2) cp rest) r = readMap h r
    rw [ih, readMap_writeMap_ne _ _ _ _ _ hne]

theorem readMap_writeAll_self (h : Heap) (cp : MapRef) (l : Fields)
    (hcp : cp < h.maps.length) :
    readMap (writeAll h cp l) cp = mergeInto (readMap h cp) l := by
  induction l generalizing h with
  | nil => rfl
  | cons p rest ih =>
    show readMap (writeAll (writeMap h cp p.1 p.2) cp rest) cp =
      mergeInto (setF (readMap h cp) p.1 p.2) rest
    rw [ih _ (by rw [length_writeMap] ; exact hcp),
      readMap_writeMap_self h cp p.1 p.2 hcp]

theorem readMap_allocMap_lt (h : Heap) (f : Fields) (r : MapRef)
    (hr : r < h.maps.length) : readMap (allocMap h f).1 r = readMap h r := by
  rw [readMap_def, readMap_def]
  show ((h.maps ++ [f])[r]?).getD [] = (h.maps[r]?).getD []
  rw [List.getElem?_append_left hr]

theorem readMap_allocMap_self (h : Heap) (f : Fields) :
    readMap (allocMap h f).1 (allocMap h f).2 = f := by
  rw [readMap_def]
  show ((h.maps ++ [f])[h.maps.length]?).getD [] = f
  rw [List.getElem?_concat_length, Option.getD_some]

theorem readMap_allocNil (h : Heap) (r : MapRef) :
    readMap (allocMap h ([] : Fields)).1 r = readMap h r := by
  by_cases hr : r < h.maps.length
  · exact readMap_allocMap_lt h [] r hr
  · rw [readMap_def, readMap_def]
    show ((h.maps ++ [[]])[r]?).getD [] = (h.maps[r]?).getD []
    have hler : h.maps.length ≤ r := Nat.le_of_not_lt hr
    have hnone : h.maps[r]? = none := by
      rw [List.getElem?_eq_none_iff]
      exact hler
    rw [hnone, List.getElem?_append_right hler]
    cases hd : (r - h.maps.length) with
    | zero => rfl
    | succ n => rfl

theorem getFieldsH_eq (h : Heap) (ctx : HContext) :
    getFieldsH h ctx =
      (match hctxLogValue ctx with
       | none => allocMap h []
       | some (Sum.inl r) => (h, r)
       | some (Sum.inr rend) =>
         allocMap h
           [(logErrorKeyG, GoValue.vStr (gs "failed to assert type Fields on " ++ rend))]) := rfl

theorem ctxLogValue_absCtx (h : Heap) (c : HContext) :
    ctxLogValue (absCtx h c) =
      (hctxLogValue c).map
        (fun x =>
          match x with
          | Sum.inl r => CtxVal.fieldsVal (readMap h r)
          | Sum.inr rend => CtxVal.otherVal rend) := by
  induction c with
  | background => rfl
  | withLogFields p r ih => rfl
  | withLogOther p rend ih => rfl
  | withOtherValue p ih => exact ih

theorem getFields_absCtx (h : Heap) (c : HContext) :
    getFields (absCtx h c) =
      (match hctxLogValue c with
       | none => []
       | some (Sum.inl r) => readMap h r
       | some (Sum.inr rend) =>
         [(logErrorKeyG, GoValue.vStr (gs "failed to assert type Fields on " ++ rend))]) := by
  rw [getFields, ctxLogValue_absCtx]
  cases hctxLogValue c with
  | none => rfl
  | some x => cases x <;> rfl

theorem getFieldsH_length (h : Heap) (ctx : HContext) :
    h.maps.length ≤ (getFieldsH h ctx).1.maps.length := by
  rw [getFieldsH_eq]
  cases hc : hctxLogValue ctx with
  | none =>
    show h.maps.length ≤ (allocMap h []).1.maps.length
    rw [length_allocMap]
    exact Nat.le_succ _
  | some x =>
    cases x with
    | inl r => exact Nat.le_refl _
    | inr rend =>
      show h.maps.length ≤ (allocMap h _).1.maps.length
      rw [length_allocMap]
      exact Nat.le_succ _

theorem getFieldsH_frame (h : Heap) (ctx : HContext) (r : MapRef)
    (hr : r < h.maps.length) : readMap (getFieldsH h ctx).1 r = readMap h r := by
  rw [getFieldsH_eq]
  cases hc : hctxLogValue ctx with
  | none => exact readMap_allocMap_lt h [] r hr
  | some x =>
    cases x with
    | inl rr => rfl
    | inr rend => exact readMap_allocMap_lt h _ r hr

theorem getFieldsH_read (h : Heap) (ctx : HContext) :
    readMap (getFieldsH h ctx).1 (getFieldsH h ctx).2 = getFields (absCtx h ctx) := by
  rw [getFieldsH_eq, getFields_absCtx]
  cases hc : hctxLogValue ctx with
  | none => exact readMap_allocMap_self h []
  | some x =>
    cases x with
    | inl rr => rfl
    | inr rend => exact readMap_allocMap_self h _

theorem copyFieldsH_ref (h : Heap) (ctx : HContext) :
    (copyFieldsH h ctx).2 = (getFieldsH h ctx).1.maps.length := rfl

theorem copyFieldsH_length (h : Heap) (ctx : HContext) :
    (copyFieldsH h ctx).1.maps.length = (getFieldsH h ctx).1.maps.length + 1 := by
  show (writeAll _ _ _).maps.length = _
  rw [length_writeAll, length_allocMap]

theorem copyFieldsH_frame (h : Heap) (ctx : HContext) (r : MapRef)
    (hr : r < h.maps.length) : readMap (copyFieldsH h ctx).1 r = readMap h r := by
  show readMap (writeAll (allocMap (getFieldsH h ctx).1 []).1
    (getFieldsH h ctx).1.maps.length (readMap (allocMap (getFieldsH h ctx).1 []).1
      (getFieldsH h ctx).2)) r = readMap h r
  have hne : (getFieldsH h ctx).1.maps.length ≠ r :=
    Nat.ne_of_gt (Nat.lt_of_lt_of_le hr (getFieldsH_length h ctx))
  rw [readMap_writeAll_ne _ _ _ _ hne, readMap_allocNil, getFieldsH_frame h ctx r hr]

theorem copyFieldsH_read (h : Heap) (ctx : HContext) :
    readMap (copyFieldsH h ctx).1 (copyFieldsH h ctx).2 = copyFields (absCtx h ctx) := by
  show readMap (writeAll (allocMap (getFieldsH h ctx).1 []).1
    (getFieldsH h ctx).1.maps.length (readMap (allocMap (getFieldsH h ctx).1 []).1
      (getFieldsH h ctx).2)) ((getFieldsH h ctx).1.maps.length) = _
  have hlt : (getFieldsH h ctx).1.maps.length <
      (allocMap (getFieldsH h ctx).1 ([] : Fields)).1.maps.length := by
    rw [length_allocMap]
    exact Nat.lt_succ_self _
  rw [readMap_writeAll_self _ _ _ hlt]
  have h1 : readMap (allocMap (getFieldsH h ctx).1 ([] : Fields)).1
      ((getFieldsH h ctx).1.maps.length) = [] := readMap_allocMap_self _ []
  have h2 : readMap (allocMap (getFieldsH h ctx).1 ([] : Fields)).1
      ((getFieldsH h ctx).2) = readMap (getFieldsH h ctx).1 (getFieldsH h ctx).2 :=
    readMap_allocNil _ _
  rw [h1, h2, getFieldsH_read h ctx]
  rfl

theorem withFieldsH_length (h : Heap) (ctx : HContext) (kv : List GoValue) :
    h.maps.length < (withFieldsH h ctx kv).1.maps.length := by
  show h.maps.length < (writeAll (copyFieldsH h ctx).1 (copyFieldsH h ctx).2
    (newFields kv)).maps.length
  rw [length_writeAll, copyFieldsH_length]
  exact Nat.lt_succ_of_le (getFieldsH_length h ctx)

theorem withFieldsH_frame (h : Heap) (ctx : HContext) (kv : List GoValue) (r : MapRef)
    (hr : r < h.maps.length) : readMap (withFieldsH h ctx kv).1 r = readMap h r := by
  show readMap (writeAll (copyFieldsH h ctx).1 (copyFieldsH h ctx).2 (newFields kv)) r =
    readMap h r
  have hne : (copyFieldsH h ctx).2 ≠ r := by
    rw [copyFieldsH_ref]
    exact Nat.ne_of_gt (Nat.lt_of_lt_of_le hr (getFieldsH_length h ctx))
  rw [readMap_writeAll_ne _ _ _ _ hne, copyFieldsH_frame h ctx r hr]

theorem withFieldsH_ctx (h : Heap) (ctx : HContext) (kv : List GoValue) :
    (withFieldsH h ctx kv).2 = HContext.withLogFields ctx (copyFieldsH h ctx).2 := rfl

theorem withFieldsH_read (h : Heap) (ctx : HContext) (kv : List GoValue) :
    readMap (withFieldsH h ctx kv).1 (copyFieldsH h ctx).2 =
      getFields (withFields (absCtx h ctx) kv) := by
  show readMap (writeAll (copyFieldsH h ctx).1 (copyFieldsH h ctx).2 (newFields kv))
    ((copyFieldsH h ctx).2) = _
  have hlt : (copyFieldsH h ctx).2 < (copyFieldsH h ctx).1.maps.length := by
    rw [copyFieldsH_ref, copyFieldsH_length]
    exact Nat.lt_succ_self _
  rw [readMap_writeAll_self _ _ _ hlt, copyFieldsH_read h ctx, getFields_withFields]

theorem truncOne_vTime (m : Int) (b : Bool) (t : Nat) :
    truncOne m (GoValue.vTime b t) = GoValue.vTime b t := by
  show (if m - (truncationNoticeG.length : Int) < 1 then GoValue.vTime b t
    else truncVal (m - (truncationNoticeG.length : Int)) (GoValue.vTime b t)) = GoValue.vTime b t
  by_cases hm : m - (truncationNoticeG.length : Int) < 1
  · rw [if_pos hm]
  · rw [if_neg hm]
    rfl

/-- Claim C3 (counterexample): with `MaxLen = 14` the effective limit is 1, and
an `info` emission of the two-character message `ab` on the background context
writes a `msg` field equal to `a--truncated--`, not to the message text: the
truncation stage runs after the reserved overlay and shortens the reserved
`msg` string like any other string value. -/
theorem c3_counterexample :
    findF (logFields 14 GoContext.background (gs "info") (gs "ab") 0 [])
        (gs "msg") = some (GoValue.vStr (gs "a--truncated--")) ∧
      gs "a--truncated--" ≠ gs "ab" := by
  decide

/-- Claim C3 (amended): on every emission the three reserved fields are
overlaid last and unconditionally, winning over any same-named field from the
context store or the call-site list: in the merged store before truncation,
`msg` is exactly the message text, `level` the level tag and `ts` the
emission time; in the final output the same holds up to the truncation stage
of the merged store (`truncOne`), which is the identity on `ts` (never a
string) and on `msg`/`level` whenever they fit the effective limit. -/
theorem c3_reserved_overlay (maxLen : Int) (ctx : GoContext) (level msg : GoStr)
    (now : Nat) (kv : List GoValue) :
    findF (mergedFields ctx level msg now kv) (gs "msg") = some (GoValue.vStr msg) ∧
    findF (mergedFields ctx level msg now kv) (gs "level") = some (GoValue.vStr level) ∧
    findF (mergedFields ctx level msg now kv) (gs "ts") =
      some (GoValue.vTime true now) ∧
    findF (logFields maxLen ctx level msg now kv) (gs "msg") =
      some (truncOne maxLen (GoValue.vStr msg)) ∧
    findF (logFields maxLen ctx level msg now kv) (gs "level") =
      some (truncOne maxLen (GoValue.vStr level)) ∧
    findF (logFields maxLen ctx level msg now kv) (gs "ts") =
      some (GoValue.vTime true now) := by
  refine ⟨findF_mergedFields_msg ctx level msg now kv,
    findF_mergedFields_level ctx level msg now kv,
    findF_mergedFields_ts ctx level msg now kv, ?_, ?_, ?_⟩
  · rw [findF_logFields, findF_mergedFields_msg]
    rfl
  · rw [findF_logFields, findF_mergedFields_level]
    rfl
  · rw [findF_logFields, findF_mergedFields_ts]
    show some (truncOne maxLen (GoValue.vTime true now)) =
      some (GoValue.vTime true now)
    rw [truncOne_vTime]

theorem truncationNotice_length : truncationNoticeG.length = 13 := rfl

theorem truncOne_vStr_long (m : Int) (s : GoStr)
    (h1 : ¬(m - (truncationNoticeG.length : Int) < 1))
    (h2 : m - (truncationNoticeG.length : Int) < (s.length : Int)) :
    truncOne m (GoValue.vStr s) =
      GoValue.vStr (s.take (m - (truncationNoticeG.length : Int)).toNat ++
        truncationNoticeG) := by
  show (if m - (truncationNoticeG.length : Int) < 1 then GoValue.vStr s
    else truncVal (m - (truncationNoticeG.length : Int)) (GoValue.vStr s)) = _
  rw [if_neg h1]
  show (if m - (truncationNoticeG.length : Int) < (s.length : Int)
    then GoValue.vStr (s.take (m - (truncationNoticeG.length : Int)).toNat ++
      truncationNoticeG) else GoValue.vStr s) = _
  rw [if_pos h2]

theorem truncOne_vStr_short (m : Int) (s : GoStr)
    (h2 : ¬(m - (truncationNoticeG.length : Int) < (s.length : Int))) :
    truncOne m (GoValue.vStr s) = GoValue.vStr s := by
  show (if m - (truncationNoticeG.length : Int) < 1 then GoValue.vStr s
    else truncVal (m - (truncationNoticeG.length : Int)) (GoValue.vStr s)) = _
  by_cases h1 : m - (truncationNoticeG.length : Int) < 1
  · rw [if_pos h1]
  · rw [if_neg h1]
    show (if m - (truncationNoticeG.length : Int) < (s.length : Int)
      then GoValue.vStr (s.take (m - (truncationNoticeG.length : Int)).toNat ++
        truncationNoticeG) else GoValue.vStr s) = _
    rw [if_neg h2]

theorem truncOne_not_str (m : Int) (v : GoValue) (h : ∀ t, v ≠ GoValue.vStr t) :
    truncOne m v = v := by
  cases v with
  | vStr s => exact absurd rfl (h s)
  | vBytes bs => simp [truncOne, truncVal]
  | vInt n => simp [truncOne, truncVal]
  | vInt64 n => simp [truncOne, truncVal]
  | vFloat fin p => simp [truncOne, truncVal]
  | vTime inR t => simp [truncOne, truncVal]
  | vDuration d => simp [truncOne, truncVal]
  | vOther mm r => simp [truncOne, truncVal]

/-- Claim C7: truncation at limit `maxLen` works with the effective limit
`maxLen` minus the length of the truncation-notice marker: below 1 it is a
no-op (in particular for `maxLen = 0`); otherwise every string value longer
than the effective limit is replaced by its first effective-limit characters
followed by the marker, so the result has length exactly `maxLen` (hence 44
when `maxLen = 44`) and ends with the marker; strings within the limit and
non-string values are never changed. -/
theorem c7_truncate (f : Fields) (maxLen : Int) (k : GoStr) (s : GoStr) (v : GoValue) :
    (maxLen - (truncationNoticeG.length : Int) < 1 → Fields.truncate f maxLen = f) ∧
    (¬(maxLen - (truncationNoticeG.length : Int) < 1) →
      findF f k = some (GoValue.vStr s) →
      maxLen - (truncationNoticeG.length : Int) < (s.length : Int) →
      findF (Fields.truncate f maxLen) k =
          some (GoValue.vStr (s.take (maxLen - (truncationNoticeG.length : Int)).toNat ++
            truncationNoticeG)) ∧
        ((s.take (maxLen - (truncationNoticeG.length : Int)).toNat ++
          truncationNoticeG).length : Int) = maxLen ∧
        truncationNoticeG <:+ (s.take (maxLen - (truncationNoticeG.length : Int)).toNat ++
          truncationNoticeG)) ∧
    (¬(maxLen - (truncationNoticeG.length : Int) < 1) →
      findF f k = some (GoValue.vStr s) →
      ¬(maxLen - (truncationNoticeG.length : Int) < (s.length : Int)) →
      findF (Fields.truncate f maxLen) k = some (GoValue.vStr s)) ∧
    (findF f k = some v → (∀ t, v ≠ GoValue.vStr t) →
      findF (Fields.truncate f maxLen) k = some v) := by
  refine ⟨?_, ?_, ?_, ?_⟩
  · intro h1
    show (if maxLen - (truncationNoticeG.length : Int) < 1 then f
      else f.map (fun p => (p.1, truncVal (maxLen - (truncationNoticeG.length : Int)) p.2))) = f
    rw [if_pos h1]
  · intro h1 hf h2
    refine ⟨?_, ?_, List.suffix_append _ _⟩
    · rw [findF_truncate, hf]
      show some (truncOne maxLen (GoValue.vStr s)) = _
      rw [truncOne_vStr_long maxLen s h1 h2]
    · rw [List.length_append, List.length_take, truncationNotice_length]
      rw [truncationNotice_length] at h1 h2
      push_cast
      omega
  · intro h1 hf h2
    rw [findF_truncate, hf]
    show some (truncOne maxLen (GoValue.vStr s)) = _
    rw [truncOne_vStr_short maxLen s h2]
  · intro hf hv
    rw [findF_truncate, hf]
    show some (truncOne maxLen v) = _
    rw [truncOne_not_str maxLen v hv]

/-- Claim C7 (witness): concrete instances of the truncation contract: at
`maxLen = 0` truncation is a no-op; at `maxLen = 44` a 45-character string
value is cut to 31 characters plus the marker, a total of exactly 44, while
an integer value passes through untouched. -/
theorem c7_truncate_witness :
    Fields.truncate
        [(gs "foo", GoValue.vStr (gs "012345678901234567890123456789012345678901234")),
         (gs "cid", GoValue.vInt 777)] 0 =
      [(gs "foo", GoValue.vStr (gs "012345678901234567890123456789012345678901234")),
       (gs "cid", GoValue.vInt 777)] ∧
    findF (Fields.truncate
        [(gs "foo", GoValue.vStr (gs "012345678901234567890123456789012345678901234")),
         (gs "cid", GoValue.vInt 777)] 44) (gs "foo") =
      some (GoValue.vStr
        ((gs "012345678901234567890123456789012345678901234").take 31 ++
          truncationNoticeG)) ∧
    (((gs "012345678901234567890123456789012345678901234").take
        ((44 - (truncationNoticeG.length : Int)).toNat) ++
      truncationNoticeG).length : Int) = 44 ∧
    findF (Fields.truncate
        [(gs "foo", GoValue.vStr (gs "012345678901234567890123456789012345678901234")),
         (gs "cid", GoValue.vInt 777)] 44) (gs "cid") =
      some (GoValue.vInt 777) := by
  refine ⟨?_, ?_, ?_, ?_⟩
  · exact (c7_truncate
      [(gs "foo", GoValue.vStr (gs "012345678901234567890123456789012345678901234")),
       (gs "cid", GoValue.vInt 777)] 0 (gs "foo")
      (gs "012345678901234567890123456789012345678901234") (GoValue.vInt 777)).1
      (by decide)
  · exact ((c7_truncate
      [(gs "foo", GoValue.vStr (gs "012345678901234567890123456789012345678901234")),
       (gs "cid", GoValue.vInt 777)] 44 (gs "foo")
      (gs "012345678901234567890123456789012345678901234") (GoValue.vInt 777)).2.1
      (by decide) (by decide) (by decide)).1
  · exact ((c7_truncate
      [(gs "foo", GoValue.vStr (gs "012345678901234567890123456789012345678901234")),
       (gs "cid", GoValue.vInt 777)] 44 (gs "foo")
      (gs "012345678901234567890123456789012345678901234") (GoValue.vInt 777)).2.1
      (by decide) (by decide) (by decide)).2.1
  · exact (c7_truncate
      [(gs "foo", GoValue.vStr (gs "012345678901234567890123456789012345678901234")),
       (gs "cid", GoValue.vInt 777)] 44 (gs "cid")
      (gs "012345678901234567890123456789012345678901234") (GoValue.vInt 777)).2.2.2
      (by decide) (fun t h => GoValue.noConfusion h)

/-- Claim C8 (counterexample): a non-native value whose `json.Marshal` fails
(a channel, modelled with its recorded failure outcome) is not serialized to
a string by normalization: `marshalUnknown` reports an error and returns the
placeholder `logerror` string instead of a serialization of the value. -/
theorem c8_counterexample :
    (marshalUnknown (GoValue.vOther
        (JsonOutcome.fail (gs "json: unsupported type: chan int"))
        (gs "(chan int)(nil)"))).2 ≠ none ∧
      (marshalUnknown (GoValue.vOther
        (JsonOutcome.fail (gs "json: unsupported type: chan int"))
        (gs "(chan int)(nil)"))).1 = GoValue.vStr logErrorKeyG := by
  decide

/-- Claim C8 (amended): normalization passes every value of the fixed native
set (string, byte sequence, int, 64-bit int, float, timestamp, duration)
through completely unchanged, and eagerly serializes every value of any other
type whose generic serialization succeeds to a string; when that
serialization fails, normalization fails, returning the wrapped error
together with the `logerror` placeholder value. -/
theorem c8_normalize (v : GoValue) :
    ((∀ m r, v ≠ GoValue.vOther m r) → marshalUnknown v = (v, none)) ∧
    (∀ d r, v = GoValue.vOther (JsonOutcome.ok d) r →
      marshalUnknown v = (GoValue.vStr d, none)) ∧
    (∀ e r, v = GoValue.vOther (JsonOutcome.fail e) r →
      marshalUnknown v = (GoValue.vStr logErrorKeyG,
        some (errorsWrapf (errorsErrorf e) (gs "failed to marshal: " ++ r)))) := by
  refine ⟨?_, ?_, ?_⟩
  · intro h
    cases v with
    | vStr s => rfl
    | vBytes bs => rfl
    | vInt n => rfl
    | vInt64 n => rfl
    | vFloat fin p => rfl
    | vTime inR t => rfl
    | vDuration d => rfl
    | vOther m r => exact absurd rfl (h m r)
  · intro d r h
    rw [h]
    rfl
  · intro e r h
    rw [h]
    rfl

/-- Claim C8 (witness): an integer passes through normalization unchanged and
a serializable structured value is replaced by its serialization string. -/
theorem c8_normalize_witness :
    marshalUnknown (GoValue.vInt 777) = (GoValue.vInt 777, none) ∧
    marshalUnknown (GoValue.vOther (JsonOutcome.ok (gs "[\"bar\"]")) (gs "[]string")) =
      (GoValue.vStr (gs "[\"bar\"]"), none) := by
  refine ⟨?_, ?_⟩
  · exact (c8_normalize (GoValue.vInt 777)).1 (fun m r h => GoValue.noConfusion h)
  · exact (c8_normalize (GoValue.vOther (JsonOutcome.ok (gs "[\"bar\"]"))
      (gs "[]string"))).2.1 (gs "[\"bar\"]") (gs "[]string") rfl

/-- Claim C1 (counterexample): with `MaxLen = 14`, a context field
`app_id = testotestotestotesto` colliding with call-site `app_id = producto`
yields an output `app_id` equal to `t--truncated--`: the value that appears
in the output is neither the context value nor the call-site value verbatim,
because truncation runs after the merge, so the claim that the context
field's value appears in the output fails as stated. -/
theorem c1_counterexample :
    findF (logFields 14
        (GoContext.withLogValue GoContext.background
          (CtxVal.fieldsVal [(gs "app_id", GoValue.vStr (gs "testotestotestotesto"))]))
        (gs "info") (gs "m") 0
        [GoValue.vStr (gs "app_id"), GoValue.vStr (gs "producto")])
        (gs "app_id") = some (GoValue.vStr (gs "t--truncated--")) ∧
      gs "t--truncated--" ≠ gs "testotestotestotesto" ∧
      gs "t--truncated--" ≠ gs "producto" := by
  decide

/-- Claim C1 (amended): on emission, when a context field and a call-site
field share a non-reserved key, the context side decides the output: the
merge starts from the call-site fields and overlays every key of the
context's store, so for every context (with a genuine map attached) and
well-formed call-site list, the output value at the shared key is the
truncation (per the truncation stage) of the context's value — in particular
the context's value itself whenever truncation leaves it unchanged — and
never the call-site value. -/
theorem c1_context_wins (maxLen : Int) (ctx : GoContext) (level msg : GoStr)
    (now : Nat) (kv : List GoValue) (k : GoStr) (v : GoValue)
    (hwf : wfKv kv = true) (hnd : (keysF (getFields ctx)).Nodup)
    (h1 : k ≠ gs "msg") (h2 : k ≠ gs "level") (h3 : k ≠ gs "ts")
    (hfind : findF (getFields ctx) k = some v) :
    findF (logFields maxLen ctx level msg now kv) k = some (truncOne maxLen v) := by
  rw [findF_logFields, findF_mergedFields_other ctx level msg now kv k h1 h2 h3 hnd,
    hfind, orO_some]
  rfl

/-- Claim C1 (witness): with truncation disabled (`MaxLen = 0`), context
field `app_id = testo` beats call-site `app_id = producto` and appears
unchanged in the output. -/
theorem c1_context_wins_witness :
    wfKv [GoValue.vStr (gs "app_id"), GoValue.vStr (gs "producto")] = true ∧
    findF (logFields 0
        (GoContext.withLogValue GoContext.background
          (CtxVal.fieldsVal [(gs "app_id", GoValue.vStr (gs "testo"))]))
        (gs "info") (gs "m") 7
        [GoValue.vStr (gs "app_id"), GoValue.vStr (gs "producto")])
        (gs "app_id") = some (truncOne 0 (GoValue.vStr (gs "testo"))) := by
  refine ⟨by decide, ?_⟩
  exact c1_context_wins 0
    (GoContext.withLogValue GoContext.background
      (CtxVal.fieldsVal [(gs "app_id", GoValue.vStr (gs "testo"))]))
    (gs "info") (gs "m") 7
    [GoValue.vStr (gs "app_id"), GoValue.vStr (gs "producto")]
    (gs "app_id") (GoValue.vStr (gs "testo"))
    (by decide) (by decide) (by decide) (by decide) (by decide) (by decide)

/-- Claim C10 (counterexample): with `MaxLen = 14`, an `Error` emission on a
context whose store holds `error = ctxerrctxerrctxerrxx` emits an `error`
field equal to `c--truncated--`, not to the value stored in the context: the
context overlay does win over the appended rendering of the error argument,
but the emitted value is the truncation of the context value, so the claim
that the emitted field equals the stored value fails as stated. -/
theorem c10_counterexample :
    findF (errorFields 14
        (GoContext.withLogValue GoContext.background
          (CtxVal.fieldsVal [(gs "error", GoValue.vStr (gs "ctxerrctxerrctxerrxx"))]))
        (gs "m") (errorsErrorf (gs "oops")) 0 [])
        (gs "error") = some (GoValue.vStr (gs "c--truncated--")) ∧
      gs "c--truncated--" ≠ gs "ctxerrctxerrctxerrxx" := by
  decide

/-- Claim C10 (amended): for every `Error` emission on a context whose store
(a genuine map) contains the key `error`, the emitted `error` field is the
truncation of the value stored in the context — the context's value itself
whenever truncation leaves it unchanged — and not the full-detail rendering
of the error argument: that rendering is appended to the call-site list and
is overwritten by the context overlay on the key collision. -/
theorem c10_ctx_error_wins (maxLen : Int) (ctx : GoContext) (msg : GoStr)
    (err : GoErr) (now : Nat) (kv : List GoValue) (v : GoValue)
    (hnd : (keysF (getFields ctx)).Nodup)
    (hfind : findF (getFields ctx) (gs "error") = some v) :
    findF (errorFields maxLen ctx msg err now kv) (gs "error") =
      some (truncOne maxLen v) := by
  rw [errorFields, findF_logFields,
    findF_mergedFields_other ctx (gs "error") msg now _ (gs "error")
      (by decide) (by decide) (by decide) hnd,
    hfind, orO_some]
  rfl

/-- Claim C10 (witness): with truncation disabled, an `Error` emission on a
context holding `error = ctxerr` emits `error = ctxerr`, not the rendering
of the passed error value. -/
theorem c10_ctx_error_wins_witness :
    findF (errorFields 0
        (GoContext.withLogValue GoContext.background
          (CtxVal.fieldsVal [(gs "error", GoValue.vStr (gs "ctxerr"))]))
        (gs "m") (errorsErrorf (gs "oops")) 3 [])
        (gs "error") = some (truncOne 0 (GoValue.vStr (gs "ctxerr"))) := by
  exact c10_ctx_error_wins 0
    (GoContext.withLogValue GoContext.background
      (CtxVal.fieldsVal [(gs "error", GoValue.vStr (gs "ctxerr"))]))
    (gs "m") (errorsErrorf (gs "oops")) 3 [] (GoValue.vStr (gs "ctxerr"))
    (by decide) (by decide)

/-- Claim C4: for every key-value list of odd length, and for every
even-length list with a non-string key, `newFields` yields a store holding
exactly the two diagnostic fields — an error description under `logerror`
and the rendering of the raw input list under `keyvals` — and none of the
other keys the list requested; and when this happens inside `withFields`,
every previously accumulated context field whose key is not one of the two
diagnostic keys is preserved. -/
theorem c4_malformed_diagnostics (kv : List GoValue) (ctx : GoContext)
    (hbad : kv.length % 2 ≠ 0 ∨ ∃ bad, firstBadKey kv = some bad)
    (hnd : (keysF (getFields ctx)).Nodup) :
    (∃ e, findF (newFields kv) logErrorKeyG = some (GoValue.vStr e)) ∧
    findF (newFields kv) (gs "keyvals") = some (GoValue.vStr (goSyntaxKv kv)) ∧
    (∀ k, k ≠ logErrorKeyG → k ≠ gs "keyvals" → findF (newFields kv) k = none) ∧
    (∀ k, k ≠ logErrorKeyG → k ≠ gs "keyvals" →
      findF (getFields (withFields ctx kv)) k = findF (getFields ctx) k) := by
  rcases newFields_malformed kv hbad with ⟨e, heq⟩
  have hother : ∀ k, k ≠ logErrorKeyG → k ≠ gs "keyvals" → findF (newFields kv) k = none := by
    intro k hk1 hk2
    rw [heq, findF_logErrorFields, if_neg hk1, if_neg hk2]
  refine ⟨⟨e, ?_⟩, ?_, hother, ?_⟩
  · rw [heq, findF_logErrorFields, if_pos rfl]
    rfl
  · rw [heq, findF_logErrorFields]
    rw [if_neg (by decide), if_pos rfl]
  · intro k hk1 hk2
    rw [findF_getFields_withFields ctx kv k hnd, hother k hk1 hk2, orO_none_left]

/-- Claim C4 (witness): the odd-length list `["foo", "bar", "odd"]` produces
exactly the `logerror` and `keyvals` diagnostic fields and no `foo` field,
and accumulating it onto a context carrying `run_id` leaves `run_id`
untouched. -/
theorem c4_malformed_diagnostics_witness :
    ([GoValue.vStr (gs "foo"), GoValue.vStr (gs "bar"),
      GoValue.vStr (gs "odd")] : List GoValue).length % 2 ≠ 0 ∧
    (∃ e, findF (newFields [GoValue.vStr (gs "foo"), GoValue.vStr (gs "bar"),
      GoValue.vStr (gs "odd")]) logErrorKeyG = some (GoValue.vStr e)) ∧
    findF (newFields [GoValue.vStr (gs "foo"), GoValue.vStr (gs "bar"),
      GoValue.vStr (gs "odd")]) (gs "foo") = none ∧
    findF (getFields (withFields
        (GoContext.withLogValue GoContext.background
          (CtxVal.fieldsVal [(gs "run_id", GoValue.vStr (gs "123"))]))
        [GoValue.vStr (gs "foo"), GoValue.vStr (gs "bar"), GoValue.vStr (gs "odd")]))
      (gs "run_id") =
      findF (getFields (GoContext.withLogValue GoContext.background
        (CtxVal.fieldsVal [(gs "run_id", GoValue.vStr (gs "123"))]))) (gs "run_id") := by
  refine ⟨by decide, ?_, ?_, ?_⟩
  · exact (c4_malformed_diagnostics
      [GoValue.vStr (gs "foo"), GoValue.vStr (gs "bar"), GoValue.vStr (gs "odd")]
      GoContext.background (Or.inl (by decide)) (by decide)).1
  · exact (c4_malformed_diagnostics
      [GoValue.vStr (gs "foo"), GoValue.vStr (gs "bar"), GoValue.vStr (gs "odd")]
      GoContext.background (Or.inl (by decide)) (by decide)).2.2.1
      (gs "foo") (by decide) (by decide)
  · exact (c4_malformed_diagnostics
      [GoValue.vStr (gs "foo"), GoValue.vStr (gs "bar"), GoValue.vStr (gs "odd")]
      (GoContext.withLogValue GoContext.background
        (CtxVal.fieldsVal [(gs "run_id", GoValue.vStr (gs "123"))]))
      (Or.inl (by decide)) (by decide)).2.2.2
      (gs "run_id") (by decide) (by decide)

/-- Claim C5 (counterexample): in the list `["a", 1, "foo", <channel>]` the
channel value fails to serialize, yet the resulting store still carries the
requested field `a = 1` alongside the diagnostic pair: substitution happens
per failing key, not at the level of the whole key-value list, so the
odd-length behavior (which discards every requested field) is not mirrored. -/
theorem c5_counterexample :
    findF (newFields [GoValue.vStr (gs "a"), GoValue.vInt 1, GoValue.vStr (gs "foo"),
        GoValue.vOther (JsonOutcome.fail (gs "json: unsupported type: chan int"))
          (gs "(chan int)(nil)")]) (gs "a") ≠ none ∧
    findF (newFields [GoValue.vStr (gs "a"), GoValue.vInt 1, GoValue.vStr (gs "foo"),
        GoValue.vOther (JsonOutcome.fail (gs "json: unsupported type: chan int"))
          (gs "(chan int)(nil)")]) (gs "a") = some (GoValue.vInt 1) ∧
    (findF (newFields [GoValue.vStr (gs "a"), GoValue.vInt 1, GoValue.vStr (gs "foo"),
        GoValue.vOther (JsonOutcome.fail (gs "json: unsupported type: chan int"))
          (gs "(chan int)(nil)")]) logErrorKeyG).isSome = true := by
  refine ⟨?_, by decide, by decide⟩
  decide

/-- Claim C5 (amended): for a well-formed key-value list, substitution on a
serialization failure is per failing pair: a key other than the two
diagnostic keys maps to the normalized value of its last requesting pair
when that pair's value serializes, and is absent when that pair's value
fails (or no pair requests it); and when some value of the list fails and no
pair requests the diagnostic keys themselves, the resulting store carries
both the `logerror` and the `keyvals` diagnostic fields. -/
theorem c5_per_key_substitution (kv : List GoValue) (hwf : wfKv kv = true) :
    (∀ k, k ≠ logErrorKeyG → k ≠ gs "keyvals" →
      findF (newFields kv) k =
        (match lastReq k kv with
         | some o => o
         | none => none)) ∧
    (hasFail kv = true → lastReq logErrorKeyG kv = none →
      lastReq (gs "keyvals") kv = none →
      (findF (newFields kv) logErrorKeyG).isSome = true ∧
        (findF (newFields kv) (gs "keyvals")).isSome = true) := by
  refine ⟨?_, ?_⟩
  · intro k hk1 hk2
    exact findF_newFields kv k hwf hk1 hk2
  · intro hfail hl1 hl2
    rw [newFields_wf kv hwf]
    exact diag_of_buildFields_hasFail kv kv [] List.nodup_nil
      (wfKv_firstBadKey kv hwf) hl1 hl2 (Or.inl hfail)

/-- Claim C5 (witness): on `["a", 1, "foo", <channel>]` the amended contract
holds concretely: `a` keeps its value `1`, `foo` (the failing key) is
absent, and both diagnostic fields are present. -/
theorem c5_per_key_substitution_witness :
    wfKv [GoValue.vStr (gs "a"), GoValue.vInt 1, GoValue.vStr (gs "foo"),
        GoValue.vOther (JsonOutcome.fail (gs "json: unsupported type: chan int"))
          (gs "(chan int)(nil)")] = true ∧
    findF (newFields [GoValue.vStr (gs "a"), GoValue.vInt 1, GoValue.vStr (gs "foo"),
        GoValue.vOther (JsonOutcome.fail (gs "json: unsupported type: chan int"))
          (gs "(chan int)(nil)")]) (gs "a") =
      (match lastReq (gs "a") [GoValue.vStr (gs "a"), GoValue.vInt 1,
          GoValue.vStr (gs "foo"),
          GoValue.vOther (JsonOutcome.fail (gs "json: unsupported type: chan int"))
            (gs "(chan int)(nil)")] with
       | some o => o
       | none => none) ∧
    findF (newFields [GoValue.vStr (gs "a"), GoValue.vInt 1, GoValue.vStr (gs "foo"),
        GoValue.vOther (JsonOutcome.fail (gs "json: unsupported type: chan int"))
          (gs "(chan int)(nil)")]) (gs "foo") =
      (match lastReq (gs "foo") [GoValue.vStr (gs "a"), GoValue.vInt 1,
          GoValue.vStr (gs "foo"),
          GoValue.vOther (JsonOutcome.fail (gs "json: unsupported type: chan int"))
            (gs "(chan int)(nil)")] with
       | some o => o
       | none => none) ∧
    (findF (newFields [GoValue.vStr (gs "a"), GoValue.vInt 1, GoValue.vStr (gs "foo"),
        GoValue.vOther (JsonOutcome.fail (gs "json: unsupported type: chan int"))
          (gs "(chan int)(nil)")]) logErrorKeyG).isSome = true := by
  refine ⟨by decide, ?_, ?_, ?_⟩
  · exact (c5_per_key_substitution _ (by decide)).1 (gs "a") (by decide) (by decide)
  · exact (c5_per_key_substitution _ (by decide)).1 (gs "foo") (by decide) (by decide)
  · exact ((c5_per_key_substitution _ (by decide)).2 (by decide) (by decide) (by decide)).1

theorem logRun_altLine (s : Sabot) (ctx : GoContext) (level msg : GoStr) (now : Nat)
    (kv : List GoValue) :
    (logRun s ctx level msg now kv).altLine =
      (match s.writerErr with
       | none => none
       | some werr =>
         if s.altPresent then
           some (altWriteLine (errorsWrapf werr (gs "failed to write"))
             (logFields s.maxLen ctx level msg now kv))
         else none) := rfl

/-- Claim C6: emission is total (the embedded `logRun` returns a plain
result, with no error channel to the caller); when the primary write fails
and an alternate sink is configured, exactly one diagnostic line is offered
to the alternate sink, beginning with the `logerror` key and containing the
write error and a rendering of the field set; no alternate line is produced
when the primary write succeeds or no alternate sink exists; and the result
does not depend on whether the alternate write itself fails — its failure is
discarded with no further fallback. -/
theorem c6_write_fallback (s : Sabot) (ctx : GoContext) (level msg : GoStr)
    (now : Nat) (kv : List GoValue) (werr : GoErr) :
    (s.writerErr = some werr → s.altPresent = true →
      (logRun s ctx level msg now kv).altLine =
        some (altWriteLine (errorsWrapf werr (gs "failed to write"))
          (logFields s.maxLen ctx level msg now kv))) ∧
    (logErrorKeyG <+: altWriteLine (errorsWrapf werr (gs "failed to write"))
      (logFields s.maxLen ctx level msg now kv)) ∧
    (werr.plusV <:+: altWriteLine (errorsWrapf werr (gs "failed to write"))
      (logFields s.maxLen ctx level msg now kv)) ∧
    (goSyntaxFields (logFields s.maxLen ctx level msg now kv) <:+:
      altWriteLine (errorsWrapf werr (gs "failed to write"))
        (logFields s.maxLen ctx level msg now kv)) ∧
    (s.writerErr = none → (logRun s ctx level msg now kv).altLine = none) ∧
    (s.altPresent = false → (logRun s ctx level msg now kv).altLine = none) ∧
    (∀ e1 e2 : Option GoErr,
      logRun ⟨s.maxLen, s.writerErr, s.altPresent, e1⟩ ctx level msg now kv =
        logRun ⟨s.maxLen, s.writerErr, s.altPresent, e2⟩ ctx level msg now kv) := by
  refine ⟨?_, ?_, ?_, ?_, ?_, ?_, ?_⟩
  · intro hw ha
    rw [logRun_altLine]
    simp only [hw]
    rw [if_pos ha]
  · refine ⟨gs ": " ++ (errorsWrapf werr (gs "failed to write")).plusV ++
      gs " with fields " ++ goSyntaxFields (logFields s.maxLen ctx level msg now kv) ++
      goNL, ?_⟩
    simp [altWriteLine, List.append_assoc]
  · refine ⟨logErrorKeyG ++ gs ": ",
      goNL ++ gs "failed to write" ++ gs " with fields " ++
        goSyntaxFields (logFields s.maxLen ctx level msg now kv) ++ goNL, ?_⟩
    simp [altWriteLine, errorsWrapf, List.append_assoc]
  · refine ⟨logErrorKeyG ++ gs ": " ++
      (errorsWrapf werr (gs "failed to write")).plusV ++ gs " with fields ", goNL, ?_⟩
    simp [altWriteLine, List.append_assoc]
  · intro hw
    rw [logRun_altLine, hw]
  · intro ha
    rw [logRun_altLine]
    cases hw : s.writerErr with
    | none => rfl
    | some w => simp [ha]
  · intro e1 e2
    rfl

/-- Claim C6 (witness): with a failing primary writer (error `oops`) and an
alternate sink configured, the concrete emission offers the alternate sink a
line beginning with `logerror` and containing `oops`. -/
theorem c6_write_fallback_witness :
    (Sabot.mk 0 (some (errorsErrorf (gs "oops"))) true none).writerErr =
      some (errorsErrorf (gs "oops")) ∧
    (logRun (Sabot.mk 0 (some (errorsErrorf (gs "oops"))) true none)
        GoContext.background (gs "info") (gs "m") 0 []).altLine =
      some (altWriteLine (errorsWrapf (errorsErrorf (gs "oops")) (gs "failed to write"))
        (logFields 0 GoContext.background (gs "info") (gs "m") 0 [])) ∧
    (logErrorKeyG <+: altWriteLine
      (errorsWrapf (errorsErrorf (gs "oops")) (gs "failed to write"))
      (logFields 0 GoContext.background (gs "info") (gs "m") 0 [])) ∧
    ((errorsErrorf (gs "oops")).plusV <:+: altWriteLine
      (errorsWrapf (errorsErrorf (gs "oops")) (gs "failed to write"))
      (logFields 0 GoContext.background (gs "info") (gs "m") 0 [])) := by
  refine ⟨rfl, ?_, ?_, ?_⟩
  · exact (c6_write_fallback (Sabot.mk 0 (some (errorsErrorf (gs "oops"))) true none)
      GoContext.background (gs "info") (gs "m") 0 [] (errorsErrorf (gs "oops"))).1
      rfl rfl
  · exact (c6_write_fallback (Sabot.mk 0 (some (errorsErrorf (gs "oops"))) true none)
      GoContext.background (gs "info") (gs "m") 0 [] (errorsErrorf (gs "oops"))).2.1
  · exact (c6_write_fallback (Sabot.mk 0 (some (errorsErrorf (gs "oops"))) true none)
      GoContext.background (gs "info") (gs "m") 0 [] (errorsErrorf (gs "oops"))).2.2.1

/-- Claim C9 (counterexample): two native values break the claimed
invariant: a NaN-like float (non-finite value of the native float type) and
a timestamp whose year falls outside [0,9999] are each passed through
normalization unchanged, stored, and make the emission-time serialization of
the merged field set fail, so the marshal-failure fallback branch is
reachable. -/
theorem c9_counterexample :
    (jsonMarshalFields (logFields 0 GoContext.background (gs "info") (gs "m") 0
      [GoValue.vStr (gs "x"), GoValue.vFloat false 0])).isOk = false ∧
    (jsonMarshalFields (logFields 0 GoContext.background (gs "info") (gs "m") 0
      [GoValue.vStr (gs "when"), GoValue.vTime false 0])).isOk = false := by
  refine ⟨by decide, by decide⟩

/-- Claim C9 (amended): for every context built from the background context
purely by `WithFields` calls and every call-site key-value list, provided no
supplied value is a natively-unserializable one — a non-finite float, or a
timestamp with year outside [0,9999] — every value stored in the resulting
field stores serializes, and the serialization of the merged field set at
emission time succeeds. -/
theorem c9_serializable (maxLen : Int) (ctx : GoContext) (level msg : GoStr)
    (now : Nat) (kv : List GoValue) (hacc : AccumulatedSer ctx)
    (hkv : ∀ v ∈ kv, serOk v = true) :
    (jsonMarshalFields (logFields maxLen ctx level msg now kv)).isOk = true := by
  rw [logFields]
  exact jsonMarshalFields_isOk _
    (allSer_truncate _ _
      (allSer_mergedFields ctx level msg now kv (allSer_getFields_acc ctx hacc) hkv))

/-- Claim C9 (witness): serialization succeeds for a concrete accumulated
context (`run_id`) and call-site list (`cid = 777`). -/
theorem c9_serializable_witness :
    (∀ v ∈ [GoValue.vStr (gs "cid"), GoValue.vInt 777], serOk v = true) ∧
    (jsonMarshalFields (logFields 44
      (withFields GoContext.background
        [GoValue.vStr (gs "run_id"), GoValue.vStr (gs "123")])
      (gs "info") (gs "m") 5
      [GoValue.vStr (gs "cid"), GoValue.vInt 777])).isOk = true := by
  refine ⟨by decide, ?_⟩
  exact c9_serializable 44
    (withFields GoContext.background
      [GoValue.vStr (gs "run_id"), GoValue.vStr (gs "123")])
    (gs "info") (gs "m") 5
    [GoValue.vStr (gs "cid"), GoValue.vInt 777]
    (AccumulatedSer.step _ _ AccumulatedSer.bg (by decide)) (by decide)

/-- Claim C2: accumulation is associative and copy-on-write: the lookups of
`GetFields(WithFields(WithFields(C, A), B))` coincide with the merge of
`GetFields(C)`, then normalized `A`, then normalized `B`, later keys
winning; in the explicit-heap model of the Go maps, two nested `withFields`
calls leave every pre-existing map object — in particular the store attached
to the input context — bit-for-bit untouched; and the store attached by a
heap-level `withFields` equals the one the pure model attaches, so the two
models agree. -/
theorem c2_accumulate_assoc_cow (C : GoContext) (A B : List GoValue) (h : Heap)
    (hc : HContext) (r : MapRef) (hA : wfKv A = true) (hB : wfKv B = true)
    (hnd : (keysF (getFields C)).Nodup) (hr : r < h.maps.length) :
    (∀ k, findF (getFields (withFields (withFields C A) B)) k =
      findF (mergeInto (mergeInto (getFields C) (newFields A)) (newFields B)) k) ∧
    readMap (withFieldsH (withFieldsH h hc A).1 (withFieldsH h hc A).2 B).1 r =
      readMap h r ∧
    readMap (withFieldsH h hc A).1 (copyFieldsH h hc).2 =
      getFields (withFields (absCtx h hc) A) := by
  refine ⟨?_, ?_, withFieldsH_read h hc A⟩
  · intro k
    rw [findF_getFields_withFields (withFields C A) B k
        (nodup_keysF_getFields_withFields C A),
      findF_getFields_withFields C A k hnd,
      findF_mergeInto, findF_reverse_of_nodup _ _ (nodup_keysF_newFields B),
      findF_mergeInto, findF_reverse_of_nodup _ _ (nodup_keysF_newFields A)]
  · rw [withFieldsH_frame (withFieldsH h hc A).1 (withFieldsH h hc A).2 B r
        (Nat.lt_trans hr (withFieldsH_length h hc A)),
      withFieldsH_frame h hc A r hr]

/-- Claim C2 (witness): a concrete run of the associativity equation at the
colliding key `b` (the later list wins), together with the heap frame
property (the store attached to the input context is unchanged after two
accumulations) and the agreement of the heap run with the pure model. -/
theorem c2_accumulate_assoc_cow_witness :
    wfKv [GoValue.vStr (gs "b"), GoValue.vInt 2] = true ∧
    findF (getFields (withFields (withFields
        (GoContext.withLogValue GoContext.background
          (CtxVal.fieldsVal [(gs "a", GoValue.vInt 1)]))
        [GoValue.vStr (gs "b"), GoValue.vInt 2])
        [GoValue.vStr (gs "b"), GoValue.vInt 3, GoValue.vStr (gs "c"), GoValue.vInt 4]))
      (gs "b") =
      findF (mergeInto (mergeInto
        (getFields (GoContext.withLogValue GoContext.background
          (CtxVal.fieldsVal [(gs "a", GoValue.vInt 1)])))
        (newFields [GoValue.vStr (gs "b"), GoValue.vInt 2]))
        (newFields [GoValue.vStr (gs "b"), GoValue.vInt 3,
          GoValue.vStr (gs "c"), GoValue.vInt 4])) (gs "b") ∧
    readMap (withFieldsH
        (withFieldsH (Heap.mk [[(gs "a", GoValue.vInt 1)]])
          (HContext.withLogFields HContext.background 0)
          [GoValue.vStr (gs "b"), GoValue.vInt 2]).1
        (withFieldsH (Heap.mk [[(gs "a", GoValue.vInt 1)]])
          (HContext.withLogFields HContext.background 0)
          [GoValue.vStr (gs "b"), GoValue.vInt 2]).2
        [GoValue.vStr (gs "b"), GoValue.vInt 3, GoValue.vStr (gs "c"), GoValue.vInt 4]).1
      0 = readMap (Heap.mk [[(gs "a", GoValue.vInt 1)]]) 0 ∧
    readMap (withFieldsH (Heap.mk [[(gs "a", GoValue.vInt 1)]])
        (HContext.withLogFields HContext.background 0)
        [GoValue.vStr (gs "b"), GoValue.vInt 2]).1
      (copyFieldsH (Heap.mk [[(gs "a", GoValue.vInt 1)]])
        (HContext.withLogFields HContext.background 0)).2 =
      getFields (withFields
        (absCtx (Heap.mk [[(gs "a", GoValue.vInt 1)]])
          (HContext.withLogFields HContext.background 0))
        [GoValue.vStr (gs "b"), GoValue.vInt 2]) := by
  refine ⟨by decide, ?_, ?_, ?_⟩
  · exact (c2_accumulate_assoc_cow
      (GoContext.withLogValue GoContext.background
        (CtxVal.fieldsVal [(gs "a", GoValue.vInt 1)]))
      [GoValue.vStr (gs "b"), GoValue.vInt 2]
      [GoValue.vStr (gs "b"), GoValue.vInt 3, GoValue.vStr (gs "c"), GoValue.vInt 4]
      (Heap.mk [[(gs "a", GoValue.vInt 1)]])
      (HContext.withLogFields HContext.background 0) 0
      (by decide) (by decide) (by decide) (by decide)).1 (gs "b")
  · exact (c2_accumulate_assoc_cow
      (GoContext.withLogValue GoContext.background
        (CtxVal.fieldsVal [(gs "a", GoValue.vInt 1)]))
      [GoValue.vStr (gs "b"), GoValue.vInt 2]
      [GoValue.vStr (gs "b"), GoValue.vInt 3, GoValue.vStr (gs "c"), GoValue.vInt 4]
      (Heap.mk [[(gs "a", GoValue.vInt 1)]])
      (HContext.withLogFields HContext.background 0) 0
      (by decide) (by decide) (by decide) (by decide)).2.1
  · exact (c2_accumulate_assoc_cow
      (GoContext.withLogValue GoContext.background
        (CtxVal.fieldsVal [(gs "a", GoValue.vInt 1)]))
      [GoValue.vStr (gs "b"), GoValue.vInt 2]
      [GoValue.vStr (gs "b"), GoValue.vInt 3, GoValue.vStr (gs "c"), GoValue.vInt 4]
      (Heap.mk [[(gs "a", GoValue.vInt 1)]])
      (HContext.withLogFields HContext.background 0) 0
      (by decide) (by decide) (by decide) (by decide)).2.2
